import Mathlib

/-!
# libclirunner: a shallow embedding of `clirunner.c`

The C functions of `src/src/clirunner.c` are translated into Lean functions that
pass an explicit `World` around.  The `World` holds what the calling process can
observe of the operating system (errno, the open descriptors, the state of the
child, the actions performed so far) together with *scripts*: the results the
operating system is going to give to the next calls of `pipe`, `fork`, `read`,
`clock_gettime`, `realloc` and `waitpid`.  The scripts that drive a loop (the
results of `write` on the child's stdin, of `poll`, and of the atomic loads of
the running flag) are passed as lists next to the world.

A function returns `none` when the C call has not returned within the scripted
results: a script ran out, a blocking `waitpid` waits for a child that never
terminates, or a loop spins for ever.
-/

namespace CliRunner

/-! ## Constants -/

/-- One byte of stream data. -/
abbrev Byte := Nat

abbrev EINTR : Int := 4
abbrev EBADF : Int := 9
abbrev ECHILD : Int := 10
abbrev EAGAIN : Int := 11
abbrev EWOULDBLOCK : Int := 11
abbrev EINVAL : Int := 22
abbrev EMFILE : Int := 24
abbrev EPIPE : Int := 32
abbrev ETIMEDOUT : Int := 110

abbrev SIGKILL : Int := 9
abbrev SIGPIPE : Int := 13
abbrev SIGTERM : Int := 15

/-- The size of the local read buffers, `char buf[8192]`. -/
abbrev BUFSZ : Nat := 8192

/-- The modulus of `size_t` arithmetic. -/
abbrev SIZE_MOD : Nat := 2 ^ 64

/-! ## The operating system as seen by the caller -/

/-- What the calling process did, oldest action first. -/
inductive Event
  | signal_ign (sig : Int)
  | pipe (rd wr : Int)
  | fork (pid : Int) (cmd : String) (argv : List String)
  | nonblock (fd : Int)
  | write (fd : Int) (bytes : List Byte)
  | poll_out (fd : Int) (tmo : Int)
  | poll (tmo : Int)
  | sleep (ms : Int)
  | close (fd : Int)
  | kill (pid : Int) (sig : Int)
  | waitpid (pid : Int) (nohang : Bool)
  | on_stdout (chunk : List Byte)
  | on_stderr (chunk : List Byte)
  | on_exit (code : Int)
deriving DecidableEq, Repr

/-- The child of the calling process: never forked, forked and not yet waited
for (running or zombie), or collected by a wait. -/
inductive ChildState
  | absent
  | unreaped
  | reaped
deriving DecidableEq, Repr

/-- Result of `pipe(2)`. -/
inductive PipeRes
  | ok
  | err (e : Int)
deriving DecidableEq, Repr

/-- Result of `fork(2)`: the returned pid, and the errno stored when it is negative. -/
structure ForkRes where
  pid : Int
  err : Int
deriving DecidableEq, Repr

/-- Result of `read(2)`: the bytes stored in the buffer (none of them is end of
stream), or -1 with an errno. -/
inductive ReadRes
  | data (chunk : List Byte)
  | err (e : Int)
deriving DecidableEq, Repr

/-- Result of `write(2)`: how many bytes the descriptor can take now, or -1 with
an errno. -/
inductive WriteRes
  | accepted (k : Nat)
  | err (e : Int)
deriving DecidableEq, Repr

/-- Result of `poll(2)`: the return value, the errno stored when it is negative,
and for each entry whether `revents` has one of the bits the caller tests. -/
structure PollRes where
  ret : Int
  err : Int
  rev_out : Bool
  rev_err : Bool
  rev_ctl : Bool
deriving DecidableEq, Repr

/-- Result of `waitpid(2)`: the child has terminated and is collected with this
status, the child is still running, or -1 with an errno. -/
inductive WaitRes
  | exited (status : Int)
  | alive
  | err (e : Int)
deriving DecidableEq, Repr

/-- The state of the world around the calling thread. -/
structure World where
  errno : Int
  fds : List Int
  child : ChildState
  log : List Event
  pipes : List PipeRes
  forks : List ForkRes
  clock : List Int
  allocs : List Bool
  reads_out : List ReadRes
  reads_err : List ReadRes
  waits : List WaitRes
  uninit_status : Int
deriving DecidableEq, Repr

/-- Appends an action to the log. -/
def World.emit (w : World) (e : Event) : World :=
  { w with log := w.log ++ [e] }

/-- The lowest descriptor number that is not open. -/
def lowest_free (fds : List Int) : Int :=
  match (List.range (fds.length + 1)).find? (fun n => decide ((n : Int) ∉ fds)) with
  | some n => n
  | none => fds.length

/-- Models `pipe(p)`: return value, `p[0]`, `p[1]`. -/
def sys_pipe (w : World) : Option (Int × Int × Int × World) :=
  match w.pipes with
  | [] => none
  | PipeRes.ok :: rest =>
    let rd := lowest_free w.fds
    let wr := lowest_free (rd :: w.fds)
    some (0, rd, wr,
      { w with pipes := rest, fds := w.fds ++ [rd, wr], log := w.log ++ [Event.pipe rd wr] })
  | PipeRes.err e :: rest => some (-1, -1, -1, { w with pipes := rest, errno := e })

/-- Models `close(fd)`. -/
def sys_close (fd : Int) (w : World) : World :=
  { w with fds := w.fds.filter (fun x => x != fd), log := w.log ++ [Event.close fd] }

/-- Models `kill(pid, sig)`; the signal is delivered asynchronously. -/
def sys_kill (pid sig : Int) (w : World) : World :=
  w.emit (Event.kill pid sig)

/-- Models `waitpid(pid, &status, options)`: return value, the status stored
(none when nothing is stored), the world.  A blocking wait for a child that
never terminates does not return. -/
def sys_waitpid (pid : Int) (nohang : Bool) (w : World) : Option (Int × Option Int × World) :=
  let w1 := w.emit (Event.waitpid pid nohang)
  match w1.waits with
  | [] => none
  | WaitRes.exited st :: rest =>
    some (pid, some st, { w1 with waits := rest, child := ChildState.reaped })
  | WaitRes.alive :: rest =>
    if nohang then some (0, none, { w1 with waits := rest }) else none
  | WaitRes.err e :: rest => some (-1, none, { w1 with waits := rest, errno := e })

/-! ## Internal functions -/

/-- The C struct `dynbuf_t`.  `data` is `none` for NULL, otherwise the bytes of the
block that have been written; the block has `cap` bytes. -/
structure dynbuf_t where
  data : Option (List Byte)
  len : Nat
  cap : Nat
deriving DecidableEq, Repr

/-- The C struct `child_pipes_t`. -/
structure child_pipes_t where
  in_w : Int
  out_r : Int
  err_r : Int
  pid : Int
deriving DecidableEq, Repr

/-- Models `db_init`. -/
def db_init : dynbuf_t :=
  { data := none, len := 0, cap := 0 }

/-- Models `db_free`. -/
def db_free (_b : dynbuf_t) : dynbuf_t :=
  { data := none, len := 0, cap := 0 }

/-- The loop `while (ncap < need) ncap *= 2;` on `size_t`, run for at most `fuel` tests. -/
def db_reserve_grow : Nat → Nat → Nat → Option Nat
  | 0, _, _ => none
  | fuel + 1, ncap, need =>
    if ncap < need then db_reserve_grow fuel ((ncap * 2) % SIZE_MOD) need else some ncap

/-- Models `db_reserve`.  After 64 doublings `ncap` is 0 and stays 0, so 65 tests
decide whether the loop ends. -/
def db_reserve (b : dynbuf_t) (need : Nat) (w : World) : Option (Int × dynbuf_t × World) :=
  if need ≤ b.cap then some (0, b, w)
  else
    match db_reserve_grow 65 (if b.cap ≠ 0 then b.cap else 4096) need with
    | none => none
    | some ncap =>
      match w.allocs with
      | [] => none
      | false :: rest => some (-1, b, { w with allocs := rest })
      | true :: rest =>
        some (0, { b with data := some (b.data.getD []), cap := ncap }, { w with allocs := rest })

/-- Models `db_append(b, src, n)`: after a successful `db_reserve` the `n` bytes of
`src` are copied to offset `len`, `len` grows by `n` on `size_t`, and byte `len`
is set to 0. -/
def db_append (b : dynbuf_t) (src : List Byte) (n : Nat) (w : World) :
    Option (Int × dynbuf_t × World) :=
  if n = 0 then some (0, b, w)
  else
    match db_reserve b ((b.len + n + 1) % SIZE_MOD) w with
    | none => none
    | some (r, b1, w1) =>
      if r ≠ 0 then some (-1, b1, w1)
      else
        let block := (b1.data.getD []).take b1.len ++ src.take n
        let len := (b1.len + n) % SIZE_MOD
        some (0, { b1 with data := some (block.take len ++ [0]), len := len }, w1)

/-- The C struct `oneshot_result_t`; `none` is a NULL buffer. -/
structure oneshot_result_t where
  exit_code : Int
  out : Option (List Byte)
  out_len : Nat
  err : Option (List Byte)
  err_len : Nat
deriving DecidableEq, Repr

/-- The result after `memset(res, 0, sizeof(*res))`. -/
def result_zero : oneshot_result_t :=
  { exit_code := 0, out := none, out_len := 0, err := none, err_len := 0 }

/-- One entry of a `struct pollfd` array: the descriptor, and whether `revents`
has one of the bits the caller tests. -/
structure pollfd where
  fd : Int
  revents : Bool
deriving DecidableEq, Repr

/-- The macro `WTERMSIG(status)` of glibc: `status & 0x7f`. -/
def WTERMSIG (status : Int) : Int :=
  status % 128

/-- The macro `WEXITSTATUS(status)` of glibc: `(status & 0xff00) >> 8`. -/
def WEXITSTATUS (status : Int) : Int :=
  (status / 256) % 256

/-- The macro `WIFEXITED(status)` of glibc: `WTERMSIG(status) == 0`. -/
def WIFEXITED (status : Int) : Bool :=
  WTERMSIG status == 0

/-- The macro `WIFSIGNALED(status)` of glibc:
`((signed char) ((status & 0x7f) + 1) >> 1) > 0`. -/
def WIFSIGNALED (status : Int) : Bool :=
  let x := status % 128 + 1
  let sc := if x ≥ 128 then x - 256 else x
  decide (sc / 2 > 0)

/-- The conversion `(int) x` of a 64-bit value. -/
def to_int32 (x : Int) : Int :=
  (x + 2 ^ 31) % 2 ^ 32 - 2 ^ 31

/-- Models `now_ms`. -/
def now_ms (w : World) : Option (Int × World) :=
  match w.clock with
  | [] => none
  | t :: rest => some (t, { w with clock := rest })

/-- Models `set_nonblock(fd)`; the callers ignore its result. -/
def set_nonblock (fd : Int) (w : World) : World :=
  w.emit (Event.nonblock fd)

/-- The deadline both `write_all` and `run_oneshot` compute:
`(timeout_ms >= 0) ? now_ms() + timeout_ms : -1`. -/
def compute_deadline (timeout_ms : Int) (w : World) : Option (Int × World) :=
  if timeout_ms ≥ 0 then
    match now_ms w with
    | none => none
    | some (t, w1) => some (t + timeout_ms, w1)
  else some (-1, w)

/-- The loop of `write_all`: `p` is the offset reached in `buf`, `left` the bytes
still to write. -/
def write_loop (fd : Int) (buf : List Byte) (deadline : Int) :
    List WriteRes → Nat → Nat → World → Option (Int × World)
  | [], _, left, w => if left = 0 then some (0, w) else none
  | r :: rest, p, left, w =>
    if left = 0 then some (0, w)
    else
      match r with
      | WriteRes.accepted k =>
        let n := min k left
        if n > 0 then
          write_loop fd buf deadline rest (p + n) (left - n)
            (w.emit (Event.write fd ((buf.drop p).take n)))
        else some (-1, w)
      | WriteRes.err e =>
        let w1 := { w with errno := e }
        if e = EINTR then write_loop fd buf deadline rest p left w1
        else if e = EAGAIN ∨ e = EWOULDBLOCK then
          if deadline ≥ 0 then
            match now_ms w1 with
            | none => none
            | some (now, w2) =>
              if now > deadline then some (-1, { w2 with errno := ETIMEDOUT })
              else write_loop fd buf deadline rest p left (w2.emit (Event.poll_out fd 50))
          else write_loop fd buf deadline rest p left (w1.emit (Event.poll_out fd 50))
        else some (-1, w1)

/-- Models `write_all(fd, buf, len, timeout_ms)`. -/
def write_all (fd : Int) (buf : List Byte) (len : Nat) (timeout_ms : Int)
    (writes : List WriteRes) (w : World) : Option (Int × World) :=
  match compute_deadline timeout_ms w with
  | none => none
  | some (deadline, w1) => write_loop fd buf deadline writes 0 len w1

/-- Models `spawn_with_pipes(cmd, argv, cp)`: return value, what is stored in
`*cp`, the world.  The branch `pid == 0` runs in the child, which replaces its
image or exits with 127: there the call never returns to the caller. -/
def spawn_with_pipes (cmd : String) (argv : List String) (w : World) :
    Option (Int × Option child_pipes_t × World) :=
  match sys_pipe w with
  | none => none
  | some (r1, in0, in1, w1) =>
    if r1 ≠ 0 then some (-1, none, w1)
    else
      match sys_pipe w1 with
      | none => none
      | some (r2, out0, out1, w2) =>
        if r2 ≠ 0 then some (-1, none, w2)
        else
          match sys_pipe w2 with
          | none => none
          | some (r3, err0, err1, w3) =>
            if r3 ≠ 0 then some (-1, none, w3)
            else
              match w3.forks with
              | [] => none
              | f :: rest =>
                let w4 := { w3 with forks := rest }
                if f.pid < 0 then some (-1, none, { w4 with errno := f.err })
                else if f.pid = 0 then none
                else
                  let w5 := { w4 with child := ChildState.unreaped,
                                      log := w4.log ++ [Event.fork f.pid cmd argv] }
                  let w6 := sys_close err1 (sys_close out1 (sys_close in0 w5))
                  let cp : child_pipes_t :=
                    { pid := f.pid, in_w := in1, out_r := out0, err_r := err0 }
                  let w7 := set_nonblock cp.err_r (set_nonblock cp.out_r (set_nonblock cp.in_w w6))
                  some (0, some cp, w7)

/-! ## One-shot execution -/

/-- How the read loop of `run_oneshot` is left: the loop condition fails, or one of
the two labels is jumped to. -/
inductive LoopExit
  | done
  | timeout
  | fail
deriving DecidableEq, Repr

/-- How the inner `for (;;)` of `run_oneshot` is left: by `break` after closing
the descriptor, or by `goto fail`. -/
inductive DrainExit
  | closed
  | fail
deriving DecidableEq, Repr

/-- Stores the rest of a read script: stream 0 is stdout, any other is stderr. -/
def World.set_reads (w : World) (i : Nat) (rs : List ReadRes) : World :=
  if i = 0 then { w with reads_out := rs } else { w with reads_err := rs }

/-- The read script of a stream. -/
def World.reads (w : World) (i : Nat) : List ReadRes :=
  if i = 0 then w.reads_out else w.reads_err

/-- Models `poll(pfds, nfds, tmo)` as far as the world goes. -/
def sys_poll (tmo : Int) (p : PollRes) (w : World) : World :=
  let w1 := w.emit (Event.poll tmo)
  if p.ret < 0 then { w1 with errno := p.err } else w1

/-- The head of the read loop of `run_oneshot`: `none` is `goto timeout`, otherwise
the timeout to hand to `poll`. -/
def poll_budget (deadline : Int) (w : World) : Option (Option Int × World) :=
  if deadline ≥ 0 then
    match now_ms w with
    | none => none
    | some (now, w1) =>
      if now ≥ deadline then some (none, w1)
      else some (some (to_int32 (deadline - now)), w1)
  else some (some (-1), w)

/-- The inner `for (;;)` of `run_oneshot` on one descriptor, up to its `break` or
`goto fail`; the result of `db_append` is not looked at. -/
def oneshot_drain : List ReadRes → dynbuf_t → World →
    Option (DrainExit × List ReadRes × dynbuf_t × World)
  | [], _, _ => none
  | ReadRes.data chunk :: rest, b, w =>
    if chunk.length > 0 then
      match db_append b chunk chunk.length w with
      | none => none
      | some (_, b1, w1) => oneshot_drain rest b1 w1
    else some (DrainExit.closed, rest, b, w)
  | ReadRes.err e :: rest, b, w =>
    if e = EAGAIN then some (DrainExit.closed, rest, b, { w with errno := e })
    else if e ≠ EINTR then some (DrainExit.fail, rest, b, { w with errno := e })
    else oneshot_drain rest b { w with errno := e }

/-- One round of `for (i = 0; i < 2; i++)` in `run_oneshot`: `false` in the first
component is `goto fail`. -/
def oneshot_scan (i : Nat) (p : pollfd) (opn : Int) (b : dynbuf_t) (w : World) :
    Option (Bool × pollfd × Int × dynbuf_t × World) :=
  if p.fd < 0 then some (true, p, opn, b, w)
  else if p.revents then
    match oneshot_drain (w.reads i) b w with
    | none => none
    | some (DrainExit.closed, rest, b1, w1) =>
      some (true, { p with fd := -1 }, opn - 1, b1, sys_close p.fd (w1.set_reads i rest))
    | some (DrainExit.fail, rest, b1, w1) => some (false, p, opn, b1, w1.set_reads i rest)
  else some (true, p, opn, b, w)

/-- The loop `while (open > 0)` of `run_oneshot`. -/
def read_loop (deadline : Int) : List PollRes → pollfd → pollfd → Int → dynbuf_t → dynbuf_t →
    World → Option (LoopExit × dynbuf_t × dynbuf_t × World)
  | [], _, _, opn, bout, berr, w =>
    if opn > 0 then
      match poll_budget deadline w with
      | some (none, w1) => some (LoopExit.timeout, bout, berr, w1)
      | _ => none
    else some (LoopExit.done, bout, berr, w)
  | p :: rest, p0, p1, opn, bout, berr, w =>
    if opn > 0 then
      match poll_budget deadline w with
      | none => none
      | some (none, w1) => some (LoopExit.timeout, bout, berr, w1)
      | some (some tmo, w1) =>
        let w2 := sys_poll tmo p w1
        let q0 : pollfd := { p0 with revents := p.rev_out }
        let q1 : pollfd := { p1 with revents := p.rev_err }
        if p.ret < 0 ∧ w2.errno ≠ EINTR then some (LoopExit.fail, bout, berr, w2)
        else if p.ret = 0 then some (LoopExit.timeout, bout, berr, w2)
        else
          match oneshot_scan 0 q0 opn bout w2 with
          | none => none
          | some (false, _, _, bout1, w3) => some (LoopExit.fail, bout1, berr, w3)
          | some (true, r0, opn1, bout1, w3) =>
            match oneshot_scan 1 q1 opn1 berr w3 with
            | none => none
            | some (false, _, _, berr1, w4) => some (LoopExit.fail, bout1, berr1, w4)
            | some (true, r1, opn2, berr1, w4) => read_loop deadline rest r0 r1 opn2 bout1 berr1 w4
    else some (LoopExit.done, bout, berr, w)

/-- The code of `run_oneshot` at the label `fail`. -/
def oneshot_fail (cp : child_pipes_t) (res : oneshot_result_t) (_bout _berr : dynbuf_t)
    (w : World) : Option (Int × Option oneshot_result_t × World) :=
  let e := w.errno
  match sys_waitpid cp.pid true w with
  | none => none
  | some (_, _, w1) => some (-1, some res, { w1 with errno := e })

/-- The code of `run_oneshot` at the label `timeout`, which falls through to `fail`. -/
def oneshot_timeout (cp : child_pipes_t) (res : oneshot_result_t) (bout berr : dynbuf_t)
    (w : World) : Option (Int × Option oneshot_result_t × World) :=
  let w1 := sys_kill cp.pid SIGTERM w
  let w2 := w1.emit (Event.sleep 200)
  let w3 := sys_kill cp.pid SIGKILL w2
  match sys_waitpid cp.pid false w3 with
  | none => none
  | some (_, _, w4) => oneshot_fail cp res bout berr w4

/-- The exit code `run_oneshot` stores in `res->exit_code`. -/
def oneshot_exit_code (status : Int) : Int :=
  if WIFEXITED status then WEXITSTATUS status
  else if WIFSIGNALED status then 128 + WTERMSIG status
  else -1

/-- The code of `run_oneshot` after its read loop ended with both streams closed. -/
def oneshot_success (cp : child_pipes_t) (bout berr : dynbuf_t) (w : World) :
    Option (Int × Option oneshot_result_t × World) :=
  match sys_waitpid cp.pid false w with
  | none => none
  | some (_, st, w1) =>
    let status := st.getD w.uninit_status
    some (0, some { exit_code := oneshot_exit_code status,
                    out := bout.data, out_len := bout.len,
                    err := berr.data, err_len := berr.len }, w1)

/-- The stdin phase of `run_oneshot`: the result of `write_all`, or 0 when there is
nothing to write. -/
def oneshot_write (cp : child_pipes_t) (stdin_payload : Option (List Byte)) (stdin_len : Nat)
    (timeout_ms : Int) (writes : List WriteRes) (w : World) : Option (Int × World) :=
  match stdin_payload with
  | some buf =>
    if stdin_len ≠ 0 then write_all cp.in_w buf stdin_len timeout_ms writes w
    else some (0, w)
  | none => some (0, w)

/-- The read phase of `run_oneshot`: close stdin, set up `pfds`, `open` and
`deadline`, run the loop. -/
def oneshot_read (cp : child_pipes_t) (timeout_ms : Int) (polls : List PollRes) (w : World) :
    Option (LoopExit × dynbuf_t × dynbuf_t × World) :=
  let w1 := sys_close cp.in_w w
  match compute_deadline timeout_ms w1 with
  | none => none
  | some (deadline, w2) =>
    read_loop deadline polls { fd := cp.out_r, revents := false }
      { fd := cp.err_r, revents := false } 2 db_init db_init w2

/-- What `run_oneshot` does once its read loop is left: the code after the loop,
at the label `timeout`, or at the label `fail`. -/
def oneshot_finish (cp : child_pipes_t) :
    Option (LoopExit × dynbuf_t × dynbuf_t × World) →
    Option (Int × Option oneshot_result_t × World)
  | none => none
  | some (LoopExit.done, bout, berr, w3) => oneshot_success cp bout berr w3
  | some (LoopExit.timeout, bout, berr, w3) => oneshot_timeout cp result_zero bout berr w3
  | some (LoopExit.fail, bout, berr, w3) => oneshot_fail cp result_zero bout berr w3

/-- Models `run_oneshot(cmd, argv, stdin_payload, stdin_len, timeout_ms, res)`: the
return value, the content of `*res` (none when `res` is NULL), the world.
`errno` on return is the field of the world. -/
def run_oneshot (cmd : Option String) (argv : Option (List String))
    (stdin_payload : Option (List Byte)) (stdin_len : Nat) (timeout_ms : Int)
    (res : Option oneshot_result_t) (writes : List WriteRes) (polls : List PollRes)
    (w : World) : Option (Int × Option oneshot_result_t × World) :=
  match cmd, argv, res with
  | some c, some av, some _ =>
    let w0 := w.emit (Event.signal_ign SIGPIPE)
    match spawn_with_pipes c av w0 with
    | none => none
    | some (_, none, w1) => some (-1, some result_zero, w1)
    | some (r, some cp, w1) =>
      if r < 0 then some (-1, some result_zero, w1)
      else
        match oneshot_write cp stdin_payload stdin_len timeout_ms writes w1 with
        | none => none
        | some (wr, w2) =>
          if wr < 0 then oneshot_fail cp result_zero db_init db_init w2
          else oneshot_finish cp (oneshot_read cp timeout_ms polls w2)
  | _, _, _ => some (-1, res, { w with errno := EINVAL })

/-! ## Interactive session: the monitor thread -/

/-- The C struct `cli_callbacks_t`: for each slot, whether a function is present.
Calling a present slot is recorded in the log. -/
structure cli_callbacks_t where
  on_stdout : Bool
  on_stderr : Bool
  on_exit : Bool
deriving DecidableEq, Repr

/-- The C struct `cli_session` as the monitor thread reads it: the thread handle
is left out, and the loads of `running` are scripted. -/
structure cli_session where
  cp : child_pipes_t
  cb : cli_callbacks_t
  ctl_rd : Int
  ctl_wr : Int
deriving DecidableEq, Repr

/-- The loop `while ((n = read(...)) > 0)` of `session_thread` on stream `i`; the
result is the last `n`, 0 or -1. -/
def session_drain (i : Nat) (cb : cli_callbacks_t) : List ReadRes → World →
    Option (Int × List ReadRes × World)
  | [], _ => none
  | ReadRes.data chunk :: rest, w =>
    if chunk.length > 0 then
      let w1 := if i = 0 ∧ cb.on_stdout = true then w.emit (Event.on_stdout chunk) else w
      let w2 := if i = 1 ∧ cb.on_stderr = true then w1.emit (Event.on_stderr chunk) else w1
      session_drain i cb rest w2
    else some (0, rest, w)
  | ReadRes.err e :: rest, w => some (-1, rest, { w with errno := e })

/-- One round of `for (i = 0; i < 2; i++)` in `session_thread`. -/
def session_scan (i : Nat) (cb : cli_callbacks_t) (p : pollfd) (opn : Int) (w : World) :
    Option (pollfd × Int × World) :=
  if p.fd < 0 then some (p, opn, w)
  else if p.revents then
    match session_drain i cb (w.reads i) w with
    | none => none
    | some (n, rest, w1) =>
      if n = 0 then some ({ p with fd := -1 }, opn - 1, sys_close p.fd (w1.set_reads i rest))
      else some (p, opn, w1.set_reads i rest)
  else some (p, opn, w)

/-- The loop `while (atomic_load(&s->running) && open > 0)` of `session_thread`;
the first list holds the values the successive loads of `running` give. -/
def session_loop (cb : cli_callbacks_t) : List Bool → List PollRes → pollfd → pollfd → Int →
    World → Option World
  | [], _, _, _, _, _ => none
  | running :: more, ps, p0, p1, opn, w =>
    if running = true ∧ opn > 0 then
      match ps with
      | [] => none
      | p :: ps1 =>
        let w1 := sys_poll 2000 p w
        let q0 : pollfd := { p0 with revents := p.rev_out }
        let q1 : pollfd := { p1 with revents := p.rev_err }
        if p.ret < 0 then
          if w1.errno = EINTR then session_loop cb more ps1 q0 q1 opn w1
          else some w1
        else if p.ret = 0 then session_loop cb more ps1 q0 q1 opn w1
        else if p.rev_ctl = true then some w1
        else
          match session_scan 0 cb q0 opn w1 with
          | none => none
          | some (r0, opn1, w2) =>
            match session_scan 1 cb q1 opn1 w2 with
            | none => none
            | some (r1, opn2, w3) => session_loop cb more ps1 r0 r1 opn2 w3
    else some w

/-- The exit code `session_thread` hands to `on_exit`. -/
def session_exit_code (status : Int) : Int :=
  if WIFEXITED status then WEXITSTATUS status
  else if WIFSIGNALED status then 128 + WTERMSIG status
  else -1

/-- Models `session_thread(s)`: the world when the thread function returns.  The
initial `atomic_store(&s->running, true)` is part of the scripted loads. -/
def session_thread (s : cli_session) (loads : List Bool) (polls : List PollRes) (w : World) :
    Option World :=
  match session_loop s.cb loads polls { fd := s.cp.out_r, revents := false }
      { fd := s.cp.err_r, revents := false } 2 w with
  | none => none
  | some w1 =>
    match sys_waitpid s.cp.pid false w1 with
    | none => none
    | some (_, st, w2) =>
      let exit_code := session_exit_code (st.getD w1.uninit_status)
      if s.cb.on_exit = true then some (w2.emit (Event.on_exit exit_code)) else some w2

/-! ## Interactive session: the API used by the controlling thread -/

/-- Models `cli_session_stop(s, sig)`: the return value, the value stored in
`s->running` (none when nothing is stored), the world.  The byte written to the
control pipe is 'X'; the result of that `write` is not looked at. -/
def cli_session_stop (s : Option cli_session) (sig : Int) (w : World) :
    Int × Option Bool × World :=
  match s with
  | none => (-1, none, w)
  | some s =>
    let w1 := if sig > 0 then sys_kill s.cp.pid sig w else w
    (0, some false, w1.emit (Event.write s.ctl_wr [88]))

/-! ## Worlds used in the examples -/

/-- A world with nothing scripted: descriptors 0, 1 and 2 are open, there is no child. -/
def world0 : World :=
  { errno := 0, fds := [0, 1, 2], child := ChildState.absent, log := [],
    pipes := [], forks := [], clock := [], allocs := [],
    reads_out := [], reads_err := [], waits := [], uninit_status := 0 }

/-- A world in which the three pipes and the fork succeed, with child 4242. -/
def world_spawn : World :=
  { world0 with pipes := [PipeRes.ok, PipeRes.ok, PipeRes.ok], forks := [{ pid := 4242, err := 0 }] }

/-- A poll result that reports both output descriptors ready. -/
def poll_both : PollRes :=
  { ret := 2, err := 0, rev_out := true, rev_err := true, rev_ctl := false }

/-- A poll result that reports a timeout: no descriptor is ready. -/
def poll_none : PollRes :=
  { ret := 0, err := 0, rev_out := false, rev_err := false, rev_ctl := false }

/-- The child writes "a", nothing for a while, then "b", and exits with status 0. -/
def c1_world : World :=
  { world_spawn with
    allocs := [true, true],
    reads_out := [ReadRes.data [97], ReadRes.err EAGAIN, ReadRes.data [98], ReadRes.data []],
    reads_err := [ReadRes.data []],
    waits := [WaitRes.exited 0] }

/-- The child is silent; the clock reads 1000 when the deadline is computed and
1030 at the head of the loop; the child dies of SIGTERM. -/
def c4_world : World :=
  { world_spawn with clock := [1000, 1030], waits := [WaitRes.exited 15, WaitRes.err ECHILD] }

/-- The child closes its stdin and goes on running. -/
def c6_world : World :=
  { world_spawn with waits := [WaitRes.alive] }

/-- The exec of the empty command fails in the child, which exits with 127. -/
def c7_world : World :=
  { world_spawn with
    reads_out := [ReadRes.data []], reads_err := [ReadRes.data []],
    waits := [WaitRes.exited (127 * 256)] }

/-- The first pipe is created, the second fails for lack of descriptors. -/
def c8_world : World :=
  { world0 with pipes := [PipeRes.ok, PipeRes.err EMFILE] }

/-- The clock reads 0 when `write_all` starts, 50 when the write would block, 60
when the read loop is set up and 120 at the head of the loop. -/
def c9_world : World :=
  { world_spawn with
    clock := [0, 50, 60, 120],
    reads_out := [ReadRes.data []], reads_err := [ReadRes.data []],
    waits := [WaitRes.exited 0] }

/-- The pipes and the child that `spawn_with_pipes` makes in `world_spawn`. -/
def std_cp : child_pipes_t :=
  { in_w := 4, out_r := 5, err_r := 7, pid := 4242 }

/-- The world `run_oneshot` is in after its call of `spawn_with_pipes`. -/
def spawned_world (c : String) (av : List String) (w : World) : World :=
  match spawn_with_pipes c av (w.emit (Event.signal_ign SIGPIPE)) with
  | some (_, _, v) => v
  | none => w

/-- The world `run_oneshot` is in after its stdin phase. -/
def written_world (cp : child_pipes_t) (stdin_payload : Option (List Byte)) (stdin_len : Nat)
    (timeout_ms : Int) (writes : List WriteRes) (w : World) : World :=
  match oneshot_write cp stdin_payload stdin_len timeout_ms writes w with
  | some (_, v) => v
  | none => w

/-- The world `run_oneshot` is in when its read loop is left. -/
def read_world (cp : child_pipes_t) (timeout_ms : Int) (polls : List PollRes) (w : World) :
    World :=
  match oneshot_read cp timeout_ms polls w with
  | some (_, _, _, v) => v
  | none => w

/-- The child reads slowly, echoes nothing and exits with status 0. -/
def c2_world : World :=
  { world_spawn with
    reads_out := [ReadRes.data []], reads_err := [ReadRes.data []],
    waits := [WaitRes.exited 0] }

/-- The child takes two bytes, then the pipe is full, a signal arrives, and the
rest is taken. -/
def c2_writes : List WriteRes :=
  [WriteRes.accepted 2, WriteRes.err EAGAIN, WriteRes.err EINTR, WriteRes.accepted 5]

/-- As `c9_world`, but the clock reads 200 at the head of the read loop, and the
child dies of SIGTERM. -/
def c9_world_late : World :=
  { c9_world with clock := [0, 50, 60, 200], waits := [WaitRes.exited 15, WaitRes.err ECHILD] }

/-- The pipe is full at first, then takes the byte. -/
def c9_writes : List WriteRes :=
  [WriteRes.err EAGAIN, WriteRes.accepted 1]

/-- The child writes "hi" and then hangs with stderr open; it dies of SIGTERM. -/
def c5_world : World :=
  { world_spawn with
    clock := [1000, 1030, 1100],
    allocs := [true],
    reads_out := [ReadRes.data [104, 105], ReadRes.err EAGAIN],
    waits := [WaitRes.exited 15, WaitRes.err ECHILD] }

/-- The read on stdout fails; the child has already terminated. -/
def c6_read_world : World :=
  { world_spawn with reads_out := [ReadRes.err EBADF], waits := [WaitRes.exited 0] }

/-- A session with the three callbacks present, on the pipes of `std_cp`. -/
def c10_session : cli_session :=
  { cp := std_cp, cb := { on_stdout := true, on_stderr := true, on_exit := true },
    ctl_rd := 9, ctl_wr := 10 }

/-- The world of a started session whose child dies of SIGTERM. -/
def session_world : World :=
  { world0 with fds := [0, 1, 2, 4, 5, 7, 9, 10], child := ChildState.unreaped,
                waits := [WaitRes.exited 15] }

/-- The world of a started session whose child writes "hi" and exits with status 0. -/
def session_world_eof : World :=
  { session_world with
    reads_out := [ReadRes.data [104, 105], ReadRes.data []], reads_err := [ReadRes.data []],
    waits := [WaitRes.exited 0] }

/-- A poll result that reports the control descriptor readable. -/
def poll_ctl : PollRes :=
  { ret := 1, err := 0, rev_out := false, rev_err := false, rev_ctl := true }

/-- A poll result that reports a failure other than an interruption. -/
def poll_broken : PollRes :=
  { ret := -1, err := EBADF, rev_out := false, rev_err := false, rev_ctl := false }

/-- The world `session_thread` is in when its loop is left. -/
def loop_world (s : cli_session) (loads : List Bool) (polls : List PollRes) (w : World) : World :=
  match session_loop s.cb loads polls { fd := s.cp.out_r, revents := false }
      { fd := s.cp.err_r, revents := false } 2 w with
  | some v => v
  | none => w

/-- A poll result that reports stdout ready. -/
def poll_out_only : PollRes :=
  { ret := 1, err := 0, rev_out := true, rev_err := false, rev_ctl := false }

/-- The world of a started session whose child runs on and on. -/
def session_world_alive : World :=
  { world0 with fds := [0, 1, 2, 4, 5, 7, 9, 10], child := ChildState.unreaped,
                waits := [WaitRes.alive] }

/-- The world of `session_world_alive` after `cli_session_stop(s, 0)`. -/
def session_world_stopped : World :=
  (cli_session_stop (some c10_session) 0 session_world_alive).2.2

/-- The world of a started session whose child writes "ab" and "c" to stdout and
"e" to stderr, with a pause in between, and exits with status 0. -/
def session_world_chat : World :=
  { session_world with
    reads_out := [ReadRes.data [97, 98], ReadRes.err EAGAIN, ReadRes.data [99], ReadRes.data []],
    reads_err := [ReadRes.data [101], ReadRes.data []],
    waits := [WaitRes.exited 0] }

/-- A buffer of 2^64 - 2 bytes in a block of 2^64 - 1 bytes, its content not looked at. -/
def buf_wrap : dynbuf_t :=
  { data := some [], len := 2 ^ 64 - 2, cap := 2 ^ 64 - 1 }

/-- A buffer of 2^63 bytes in a block of 2^63 + 1 bytes, its content not looked at. -/
def buf_huge : dynbuf_t :=
  { data := some [], len := 2 ^ 63, cap := 2 ^ 63 + 1 }

/-- A buffer that holds "hi" in a block of 4 bytes. -/
def buf_hi : dynbuf_t :=
  { data := some [104, 105, 0], len := 2, cap := 4 }

/-- A world in which the next allocation succeeds. -/
def world_alloc : World :=
  { world0 with allocs := [true] }

/-! ## Observations -/

/-- The chunks handed to on-stdout, in order. -/
def stdout_chunks : List Event → List (List Byte)
  | [] => []
  | Event.on_stdout chunk :: rest => chunk :: stdout_chunks rest
  | _ :: rest => stdout_chunks rest

/-- The chunks handed to on-stderr, in order. -/
def stderr_chunks : List Event → List (List Byte)
  | [] => []
  | Event.on_stderr chunk :: rest => chunk :: stderr_chunks rest
  | _ :: rest => stderr_chunks rest

/-- The read results of positive length in a read script, in order. -/
def positive_chunks : List ReadRes → List (List Byte)
  | [] => []
  | ReadRes.data chunk :: rest =>
    if chunk.length > 0 then chunk :: positive_chunks rest else positive_chunks rest
  | ReadRes.err _ :: rest => positive_chunks rest

/-- From `w` to `v` some reads were taken from the heads of the two read scripts,
the log grew, and the chunks handed to each callback are the positive reads taken
from its own stream (none when the slot is absent). -/
def Follows (cb : cli_callbacks_t) (w v : World) : Prop :=
  ∃ evs used_out used_err,
    v.log = w.log ++ evs ∧
    w.reads_out = used_out ++ v.reads_out ∧
    w.reads_err = used_err ++ v.reads_err ∧
    stdout_chunks evs = (if cb.on_stdout = true then positive_chunks used_out else []) ∧
    stderr_chunks evs = (if cb.on_stderr = true then positive_chunks used_err else [])

/-- The timeouts handed to the `poll` of the read loop, in order. -/
def poll_timeouts : List Event → List Int
  | [] => []
  | Event.poll tmo :: rest => tmo :: poll_timeouts rest
  | _ :: rest => poll_timeouts rest

/-- How many times `write_all` waited for the descriptor with `poll`. -/
def poll_out_count : List Event → Nat
  | [] => 0
  | Event.poll_out _ _ :: rest => poll_out_count rest + 1
  | _ :: rest => poll_out_count rest

/-- From `w` to `v` the loop of `write_all` kept to the deadline `D` and ended
with `r`: it read the clock `used`, once for each write that would block; after
each reading not past `D` it waited with one `poll` and tried again; a reading
past `D` is the last one, and with it the loop returned -1 with errno ETIMEDOUT. -/
def WriteBounded (D : Int) (w v : World) (r : Int) : Prop :=
  ∃ used pre evs,
    w.clock = used ++ v.clock ∧ v.log = w.log ++ evs ∧
    (∀ t ∈ pre, t ≤ D) ∧ poll_out_count evs = pre.length ∧
    (used = pre ∨ ∃ t, D < t ∧ used = pre ++ [t] ∧ r = -1 ∧ v.errno = ETIMEDOUT)

/-- From `w` to `v` the read loop of `run_oneshot` kept to the deadline `D` and
was left by `x`: it read the clock `used`, once at the head of each round; after
each reading before `D` it called `poll` with exactly the time left to `D`, and
these are all its calls of `poll`; a reading at or past `D` is the last one, and
with it the loop went to `timeout`. -/
def ReadBounded (D : Int) (w v : World) (x : LoopExit) : Prop :=
  ∃ used pre evs,
    w.clock = used ++ v.clock ∧ v.log = w.log ++ evs ∧
    (∀ t ∈ pre, t < D) ∧ poll_timeouts evs = pre.map (fun t => to_int32 (D - t)) ∧
    (used = pre ∨ ∃ t, D ≤ t ∧ used = pre ++ [t] ∧ x = LoopExit.timeout)

/-- The buffer `b` holds `bytes`: its length is theirs, they are the first bytes
of the block, a 0 follows them, and one byte of the block is spare. -/
def dynbuf_t.holds (b : dynbuf_t) (bytes : List Byte) : Prop :=
  b.len = bytes.length ∧ b.data = some (bytes ++ [0]) ∧ b.len < b.cap

/-- All the bytes a read script delivers, in order. -/
def stream_bytes : List ReadRes → List Byte
  | [] => []
  | ReadRes.data chunk :: rest => chunk ++ stream_bytes rest
  | ReadRes.err _ :: rest => stream_bytes rest

/-- What the caller of `run_oneshot` sees of stdout: the return value, the first
`out_len` bytes of `out`, and `out_len`. -/
def captured_out (r : Option (Int × Option oneshot_result_t × World)) :
    Option (Int × Option (List Byte) × Nat) :=
  match r with
  | some (ret, some res, _) => some (ret, res.out.map (List.take res.out_len), res.out_len)
  | _ => none

/-- The bytes handed to `write`, in order. -/
def written_bytes : List Event → List Byte
  | [] => []
  | Event.write _ bytes :: rest => bytes ++ written_bytes rest
  | _ :: rest => written_bytes rest

/-- The actions of `write_all` on descriptor `fd`. -/
def Event.is_stdin_step (fd : Int) : Event → Bool
  | Event.write f _ => f == fd
  | Event.poll_out f _ => f == fd
  | _ => false

/-- A call of `write`. -/
def Event.is_write : Event → Bool
  | Event.write _ _ => true
  | _ => false

/-- The actions of the read loop of `run_oneshot`. -/
def Event.is_read_step : Event → Bool
  | Event.poll _ => true
  | Event.close _ => true
  | _ => false

/-- The actions of the loop of `session_thread`. -/
def Event.is_monitor_step : Event → Bool
  | Event.poll _ => true
  | Event.close _ => true
  | Event.on_stdout _ => true
  | Event.on_stderr _ => true
  | _ => false

/-- How many times on-exit was called. -/
def on_exit_count : List Event → Nat
  | [] => 0
  | Event.on_exit _ :: rest => on_exit_count rest + 1
  | _ :: rest => on_exit_count rest

/-- A write result that is not a failure: some bytes taken, interrupted, or would block. -/
def WriteRes.soft : WriteRes → Bool
  | WriteRes.accepted k => decide (0 < k)
  | WriteRes.err e => decide (e = EINTR ∨ e = EAGAIN)

/-- The number of bytes a write script takes in all. -/
def accepted_total : List WriteRes → Nat
  | [] => 0
  | WriteRes.accepted k :: rest => k + accepted_total rest
  | WriteRes.err _ :: rest => accepted_total rest

/-- The wait found the child terminated and collected it. -/
def WaitRes.is_exited : WaitRes → Bool
  | WaitRes.exited _ => true
  | _ => false

/-- From `w` to `v` the child is not waited for and the log grows by actions that
satisfy `P`. -/
def Steps (P : Event → Bool) (w v : World) : Prop :=
  v.child = w.child ∧ ∃ evs, v.log = w.log ++ evs ∧ ∀ e ∈ evs, P e = true

/-- A buffer as `run_oneshot` can hold one: fresh from `db_init`, or a block of
4096 * 2^k bytes, less than 2^63 of them (no larger block can be allocated), that
holds `len` bytes and their terminator. -/
def dynbuf_t.built (b : dynbuf_t) : Prop :=
  b = db_init ∨ ((∃ k, k ≤ 50 ∧ b.cap = 4096 * 2 ^ k) ∧ ∃ bytes, b.holds bytes)

/-! ## Theorems -/

/-- C1 (fails on the code): the child writes "a", pauses, writes "b" and exits.
The read that would block makes `run_oneshot` close stdout: it returns 0 with the
one byte "a", although the stream delivers "ab". -/
theorem run_oneshot_truncates_at_would_block :
    stream_bytes c1_world.reads_out = [97, 98] ∧
    captured_out (run_oneshot (some "sh") (some ["sh"]) none 0 (-1) (some result_zero) []
      [poll_both] c1_world) = some (0, some [97], 1) := by
  decide

/-- C4 (fails on the code): with a timeout of 100 ms and a silent child, `poll`
returns 0 and `run_oneshot` returns -1 after killing the child, but errno is the
value it had on entry (0 here), not ETIMEDOUT. -/
theorem run_oneshot_timeout_leaves_errno :
    (run_oneshot (some "sleep") (some ["sleep", "10"]) none 0 100 (some result_zero) []
      [poll_none] c4_world).map (fun r => (r.1, r.2.2.errno, decide (r.2.2.errno = ETIMEDOUT)))
      = some (-1, 0, false) := by
  decide

/-- C8 (fails on the code): when the second `pipe` fails, `spawn_with_pipes`
returns -1 with no child, and the two ends of the first pipe (3 and 4) stay open. -/
theorem spawn_with_pipes_leaks_first_pipe :
    (spawn_with_pipes "x" ["x"] c8_world).map (fun r => (r.1, r.2.2.child, r.2.2.fds))
      = some (-1, ChildState.absent, [0, 1, 2, 3, 4]) ∧ c8_world.fds = [0, 1, 2] := by
  decide


theorem Steps.refl (P : Event → Bool) (w : World) : Steps P w w :=
  ⟨rfl, [], by simp, by simp⟩

theorem Steps.trans {P : Event → Bool} {a b c : World} (h1 : Steps P a b) (h2 : Steps P b c) :
    Steps P a c := by
  obtain ⟨hc1, e1, hl1, hp1⟩ := h1
  obtain ⟨hc2, e2, hl2, hp2⟩ := h2
  refine ⟨hc2.trans hc1, e1 ++ e2, ?_, ?_⟩
  · rw [hl2, hl1, List.append_assoc]
  · intro e he
    rcases List.mem_append.mp he with h | h
    · exact hp1 e h
    · exact hp2 e h

theorem Steps.of_eq {P : Event → Bool} {w v : World} (hc : v.child = w.child)
    (hl : v.log = w.log) : Steps P w v :=
  ⟨hc, [], by simp [hl], by simp⟩

theorem Steps.emit {P : Event → Bool} (w : World) (e : Event) (h : P e = true) :
    Steps P w (w.emit e) :=
  ⟨rfl, [e], rfl, by simpa using h⟩

theorem Steps.mono {P Q : Event → Bool} {w v : World} (h : Steps P w v)
    (hpq : ∀ e, P e = true → Q e = true) : Steps Q w v := by
  obtain ⟨hc, evs, hl, hp⟩ := h
  exact ⟨hc, evs, hl, fun e he => hpq e (hp e he)⟩

theorem written_bytes_append (a b : List Event) :
    written_bytes (a ++ b) = written_bytes a ++ written_bytes b := by
  induction a with
  | nil => rfl
  | cons e a ih =>
    cases e <;> simp [written_bytes, ih]

theorem write_loop_soft (fd : Int) (buf : List Byte) (deadline : Int) (hd : deadline < 0) :
    ∀ (writes : List WriteRes) (p left : Nat) (w : World) (r : Int) (v : World),
      (∀ x ∈ writes, x.soft = true) →
      write_loop fd buf deadline writes p left w = some (r, v) →
      r = 0 ∧ v.child = w.child ∧ ∃ evs, v.log = w.log ++ evs ∧
        (∀ e ∈ evs, e.is_stdin_step fd = true) ∧
        written_bytes evs = (buf.drop p).take left := by
  intro writes
  induction writes with
  | nil =>
    intro p left w r v _ h
    unfold write_loop at h
    split at h
    · next h0 =>
      simp only [Option.some.injEq, Prod.mk.injEq] at h
      obtain ⟨rfl, rfl⟩ := h
      exact ⟨rfl, rfl, [], by simp, by simp, by simp [h0, written_bytes]⟩
    · simp at h
  | cons x rest ih =>
    intro p left w r v hs h
    have hrest : ∀ y ∈ rest, y.soft = true := fun y hy => hs y (List.mem_cons_of_mem _ hy)
    have hx : x.soft = true := hs x (List.mem_cons_self _ _)
    unfold write_loop at h
    split at h
    · next h0 =>
      simp only [Option.some.injEq, Prod.mk.injEq] at h
      obtain ⟨rfl, rfl⟩ := h
      exact ⟨rfl, rfl, [], by simp, by simp, by simp [h0, written_bytes]⟩
    · next h0 =>
      cases x with
      | accepted k =>
        simp only [WriteRes.soft, decide_eq_true_eq] at hx
        have hn : min k left > 0 := by omega
        simp only [hn, if_true] at h
        obtain ⟨hr, hc, evs, hl, hp, hb⟩ := ih _ _ _ _ _ hrest h
        refine ⟨hr, hc, Event.write fd ((buf.drop p).take (min k left)) :: evs, ?_, ?_, ?_⟩
        · rw [hl]; simp [World.emit]
        · intro e he
          rcases List.mem_cons.mp he with rfl | he
          · simp [Event.is_stdin_step]
          · exact hp e he
        · simp only [written_bytes, hb]
          have hle : min k left ≤ left := Nat.min_le_right _ _
          have : left = min k left + (left - min k left) := by omega
          conv_rhs => rw [this, List.take_add]
          simp [List.drop_drop, Nat.add_comm]
      | err e =>
        simp only [WriteRes.soft, decide_eq_true_eq] at hx
        have hnd : ¬ deadline ≥ 0 := by omega
        rcases hx with rfl | rfl
        · simp only [if_true] at h
          obtain ⟨hr, hc, evs, hl, hp, hb⟩ := ih _ _ _ _ _ hrest h
          exact ⟨hr, hc, evs, hl, hp, hb⟩
        · simp only [hnd, if_false] at h
          simp at h
          obtain ⟨hr, hc, evs, hl, hp, hb⟩ := ih _ _ _ _ _ hrest h
          refine ⟨hr, hc, Event.poll_out fd 50 :: evs, ?_, ?_, hb⟩
          · rw [hl]; simp [World.emit]
          · intro e he
            rcases List.mem_cons.mp he with rfl | he
            · simp [Event.is_stdin_step]
            · exact hp e he

theorem write_loop_total (fd : Int) (buf : List Byte) (deadline : Int) (hd : deadline < 0) :
    ∀ (writes : List WriteRes) (p left : Nat) (w : World),
      (∀ x ∈ writes, x.soft = true) → left ≤ accepted_total writes →
      ∃ v, write_loop fd buf deadline writes p left w = some (0, v) := by
  intro writes
  induction writes with
  | nil =>
    intro p left w _ hle
    simp only [accepted_total, Nat.le_zero] at hle
    exact ⟨w, by simp [write_loop, hle]⟩
  | cons x rest ih =>
    intro p left w hs hle
    have hrest : ∀ y ∈ rest, y.soft = true := fun y hy => hs y (List.mem_cons_of_mem _ hy)
    have hx : x.soft = true := hs x (List.mem_cons_self _ _)
    by_cases h0 : left = 0
    · exact ⟨w, by simp [write_loop, h0]⟩
    · cases x with
      | accepted k =>
        simp only [WriteRes.soft, decide_eq_true_eq] at hx
        simp only [accepted_total] at hle
        have hn : min k left > 0 := by omega
        obtain ⟨v, hv⟩ := ih (p + min k left) (left - min k left)
          (w.emit (Event.write fd ((buf.drop p).take (min k left)))) hrest (by omega)
        exact ⟨v, by simp only [write_loop, h0, if_false, hn, if_true]; exact hv⟩
      | err e =>
        simp only [WriteRes.soft, decide_eq_true_eq] at hx
        simp only [accepted_total] at hle
        have hnd : ¬ deadline ≥ 0 := by omega
        rcases hx with rfl | rfl
        · obtain ⟨v, hv⟩ := ih p left { w with errno := EINTR } hrest hle
          exact ⟨v, by simp only [write_loop, h0, if_false, if_true]; exact hv⟩
        · obtain ⟨v, hv⟩ := ih p left
            (World.emit { w with errno := EAGAIN } (Event.poll_out fd 50)) hrest hle
          refine ⟨v, ?_⟩
          simp only [write_loop, h0, if_false, hnd]
          simpa using hv

theorem db_reserve_frame {b : dynbuf_t} {need : Nat} {w : World} {r : Int} {b1 : dynbuf_t}
    {v : World} (h : db_reserve b need w = some (r, b1, v)) :
    v.log = w.log ∧ v.child = w.child ∧ v.errno = w.errno ∧ v.waits = w.waits := by
  unfold db_reserve at h
  split at h
  · simp only [Option.some.injEq, Prod.mk.injEq] at h
    obtain ⟨-, -, rfl⟩ := h
    simp
  · split at h
    · simp at h
    · split at h
      · simp at h
      · simp only [Option.some.injEq, Prod.mk.injEq] at h
        obtain ⟨-, -, rfl⟩ := h
        simp
      · simp only [Option.some.injEq, Prod.mk.injEq] at h
        obtain ⟨-, -, rfl⟩ := h
        simp

theorem db_append_frame {b : dynbuf_t} {src : List Byte} {n : Nat} {w : World} {r : Int}
    {b1 : dynbuf_t} {v : World} (h : db_append b src n w = some (r, b1, v)) :
    v.log = w.log ∧ v.child = w.child ∧ v.errno = w.errno ∧ v.waits = w.waits := by
  unfold db_append at h
  split at h
  · simp only [Option.some.injEq, Prod.mk.injEq] at h
    obtain ⟨-, -, rfl⟩ := h
    simp
  · split at h
    · simp at h
    · next r0 b0 w0 hres =>
      have hf := db_reserve_frame hres
      split at h
      · simp only [Option.some.injEq, Prod.mk.injEq] at h
        obtain ⟨-, -, rfl⟩ := h
        exact hf
      · simp only [Option.some.injEq, Prod.mk.injEq] at h
        obtain ⟨-, -, rfl⟩ := h
        exact hf

theorem oneshot_drain_frame :
    ∀ (rs : List ReadRes) (b : dynbuf_t) (w : World) (x : DrainExit) (rest : List ReadRes)
      (b1 : dynbuf_t) (v : World),
      oneshot_drain rs b w = some (x, rest, b1, v) →
      v.log = w.log ∧ v.child = w.child ∧ v.waits = w.waits := by
  intro rs
  induction rs with
  | nil => intro b w x rest b1 v h; simp [oneshot_drain] at h
  | cons r rs ih =>
    intro b w x rest b1 v h
    cases r with
    | data chunk =>
      unfold oneshot_drain at h
      split at h
      · split at h
        · simp at h
        · next r0 b0 w0 hres =>
          have hf := db_append_frame hres
          have := ih _ _ _ _ _ _ h
          exact ⟨this.1.trans hf.1, this.2.1.trans hf.2.1, this.2.2.trans hf.2.2.2⟩
      · simp only [Option.some.injEq, Prod.mk.injEq] at h
        obtain ⟨-, -, -, rfl⟩ := h
        simp
    | err e =>
      unfold oneshot_drain at h
      split at h
      · simp only [Option.some.injEq, Prod.mk.injEq] at h
        obtain ⟨-, -, -, rfl⟩ := h
        simp
      · split at h
        · simp only [Option.some.injEq, Prod.mk.injEq] at h
          obtain ⟨-, -, -, rfl⟩ := h
          simp
        · have := ih _ _ _ _ _ _ h
          simpa using this

theorem set_reads_log (w : World) (i : Nat) (rs : List ReadRes) :
    (w.set_reads i rs).log = w.log ∧ (w.set_reads i rs).child = w.child := by
  unfold World.set_reads
  split <;> simp

theorem sys_close_steps {P : Event → Bool} (fd : Int) (w : World)
    (h : P (Event.close fd) = true) : Steps P w (sys_close fd w) :=
  ⟨rfl, [Event.close fd], rfl, by simpa using h⟩

theorem sys_poll_steps {P : Event → Bool} (tmo : Int) (p : PollRes) (w : World)
    (h : P (Event.poll tmo) = true) : Steps P w (sys_poll tmo p w) := by
  unfold sys_poll
  split
  · exact ⟨rfl, [Event.poll tmo], rfl, by simpa using h⟩
  · exact ⟨rfl, [Event.poll tmo], rfl, by simpa using h⟩

theorem now_ms_frame {w : World} {t : Int} {v : World} (h : now_ms w = some (t, v)) :
    v.log = w.log ∧ v.child = w.child ∧ v.errno = w.errno ∧ v.waits = w.waits := by
  unfold now_ms at h
  split at h
  · simp at h
  · simp only [Option.some.injEq, Prod.mk.injEq] at h
    obtain ⟨-, rfl⟩ := h
    simp

theorem poll_budget_frame {deadline : Int} {w : World} {o : Option Int} {v : World}
    (h : poll_budget deadline w = some (o, v)) : v.log = w.log ∧ v.child = w.child := by
  unfold poll_budget at h
  split at h
  · split at h
    · simp at h
    · next t0 w0 hnow =>
      have hf := now_ms_frame hnow
      split at h
      · simp only [Option.some.injEq, Prod.mk.injEq] at h
        obtain ⟨-, rfl⟩ := h
        exact ⟨hf.1, hf.2.1⟩
      · simp only [Option.some.injEq, Prod.mk.injEq] at h
        obtain ⟨-, rfl⟩ := h
        exact ⟨hf.1, hf.2.1⟩
  · simp only [Option.some.injEq, Prod.mk.injEq] at h
    obtain ⟨-, rfl⟩ := h
    simp

theorem oneshot_scan_steps {i : Nat} {p : pollfd} {opn : Int} {b : dynbuf_t} {w : World}
    {ok : Bool} {q : pollfd} {opn1 : Int} {b1 : dynbuf_t} {v : World}
    (h : oneshot_scan i p opn b w = some (ok, q, opn1, b1, v)) :
    Steps Event.is_read_step w v := by
  unfold oneshot_scan at h
  split at h
  · simp only [Option.some.injEq, Prod.mk.injEq] at h
    obtain ⟨-, -, -, -, rfl⟩ := h
    exact Steps.refl _ _
  · split at h
    · split at h
      · simp at h
      · next rest b0 w0 hd =>
        have hf := oneshot_drain_frame _ _ _ _ _ _ _ hd
        simp only [Option.some.injEq, Prod.mk.injEq] at h
        obtain ⟨-, -, -, -, rfl⟩ := h
        have h1 : Steps Event.is_read_step w (w0.set_reads i rest) :=
          Steps.of_eq ((set_reads_log w0 i rest).2.trans hf.2.1)
            ((set_reads_log w0 i rest).1.trans hf.1)
        exact h1.trans (sys_close_steps _ _ rfl)
      · next rest b0 w0 hd =>
        have hf := oneshot_drain_frame _ _ _ _ _ _ _ hd
        simp only [Option.some.injEq, Prod.mk.injEq] at h
        obtain ⟨-, -, -, -, rfl⟩ := h
        exact Steps.of_eq ((set_reads_log w0 i rest).2.trans hf.2.1)
            ((set_reads_log w0 i rest).1.trans hf.1)
    · simp only [Option.some.injEq, Prod.mk.injEq] at h
      obtain ⟨-, -, -, -, rfl⟩ := h
      exact Steps.refl _ _

theorem read_loop_steps (deadline : Int) :
    ∀ (polls : List PollRes) (p0 p1 : pollfd) (opn : Int) (bout berr : dynbuf_t) (w : World)
      (x : LoopExit) (bo be : dynbuf_t) (v : World),
      read_loop deadline polls p0 p1 opn bout berr w = some (x, bo, be, v) →
      Steps Event.is_read_step w v := by
  intro polls
  induction polls with
  | nil =>
    intro p0 p1 opn bout berr w x bo be v h
    unfold read_loop at h
    split at h
    · split at h
      · next w1 hb =>
        simp only [Option.some.injEq, Prod.mk.injEq] at h
        obtain ⟨-, -, -, rfl⟩ := h
        have hf := poll_budget_frame hb
        exact Steps.of_eq hf.2 hf.1
      · simp at h
    · simp only [Option.some.injEq, Prod.mk.injEq] at h
      obtain ⟨-, -, -, rfl⟩ := h
      exact Steps.refl _ _
  | cons p rest ih =>
    intro p0 p1 opn bout berr w x bo be v h
    unfold read_loop at h
    split at h
    · split at h
      · simp at h
      · next w1 hb =>
        simp only [Option.some.injEq, Prod.mk.injEq] at h
        obtain ⟨-, -, -, rfl⟩ := h
        have hf := poll_budget_frame hb
        exact Steps.of_eq hf.2 hf.1
      · next tmo w1 hb =>
        have hf := poll_budget_frame hb
        have s1 : Steps Event.is_read_step w w1 := Steps.of_eq hf.2 hf.1
        have s2 : Steps Event.is_read_step w (sys_poll tmo p w1) :=
          s1.trans (sys_poll_steps tmo p w1 rfl)
        simp only at h
        split at h
        · simp only [Option.some.injEq, Prod.mk.injEq] at h
          obtain ⟨-, -, -, rfl⟩ := h
          exact s2
        · split at h
          · simp only [Option.some.injEq, Prod.mk.injEq] at h
            obtain ⟨-, -, -, rfl⟩ := h
            exact s2
          · split at h
            · simp at h
            · next hs0 =>
              simp only [Option.some.injEq, Prod.mk.injEq] at h
              obtain ⟨-, -, -, rfl⟩ := h
              exact s2.trans (oneshot_scan_steps hs0)
            · next hs0 =>
              have s3 := s2.trans (oneshot_scan_steps hs0)
              split at h
              · simp at h
              · next hs1 =>
                simp only [Option.some.injEq, Prod.mk.injEq] at h
                obtain ⟨-, -, -, rfl⟩ := h
                exact s3.trans (oneshot_scan_steps hs1)
              · next hs1 =>
                exact (s3.trans (oneshot_scan_steps hs1)).trans (ih _ _ _ _ _ _ _ _ _ _ h)
    · simp only [Option.some.injEq, Prod.mk.injEq] at h
      obtain ⟨-, -, -, rfl⟩ := h
      exact Steps.refl _ _

theorem write_loop_steps (fd : Int) (buf : List Byte) (deadline : Int) :
    ∀ (writes : List WriteRes) (p left : Nat) (w : World) (r : Int) (v : World),
      write_loop fd buf deadline writes p left w = some (r, v) →
      Steps (Event.is_stdin_step fd) w v := by
  intro writes
  induction writes with
  | nil =>
    intro p left w r v h
    unfold write_loop at h
    split at h
    · simp only [Option.some.injEq, Prod.mk.injEq] at h
      obtain ⟨-, rfl⟩ := h
      exact Steps.refl _ _
    · simp at h
  | cons x rest ih =>
    intro p left w r v h
    unfold write_loop at h
    split at h
    · simp only [Option.some.injEq, Prod.mk.injEq] at h
      obtain ⟨-, rfl⟩ := h
      exact Steps.refl _ _
    · cases x with
      | accepted k =>
        simp only at h
        split at h
        · exact (Steps.emit w _ (by simp [Event.is_stdin_step])).trans (ih _ _ _ _ _ h)
        · simp only [Option.some.injEq, Prod.mk.injEq] at h
          obtain ⟨-, rfl⟩ := h
          exact Steps.refl _ _
      | err e =>
        have s1 : Steps (Event.is_stdin_step fd) w { w with errno := e } := Steps.of_eq rfl rfl
        simp only at h
        split at h
        · exact s1.trans (ih _ _ _ _ _ h)
        · split at h
          · split at h
            · split at h
              · simp at h
              · next now w2 hnow =>
                have hf := now_ms_frame hnow
                have s2 : Steps (Event.is_stdin_step fd) w w2 :=
                  Steps.of_eq hf.2.1 hf.1
                split at h
                · simp only [Option.some.injEq, Prod.mk.injEq] at h
                  obtain ⟨-, rfl⟩ := h
                  exact s2.trans (Steps.of_eq rfl rfl)
                · exact (s2.trans (Steps.emit w2 _ (by simp [Event.is_stdin_step]))).trans
                    (ih _ _ _ _ _ h)
            · exact (s1.trans (Steps.emit _ _ (by simp [Event.is_stdin_step]))).trans
                (ih _ _ _ _ _ h)
          · simp only [Option.some.injEq, Prod.mk.injEq] at h
            obtain ⟨-, rfl⟩ := h
            exact s1

theorem compute_deadline_frame {t : Int} {w : World} {d : Int} {v : World}
    (h : compute_deadline t w = some (d, v)) : v.log = w.log ∧ v.child = w.child := by
  unfold compute_deadline at h
  split at h
  · split at h
    · simp at h
    · next t0 w0 hnow =>
      have hf := now_ms_frame hnow
      simp only [Option.some.injEq, Prod.mk.injEq] at h
      obtain ⟨-, rfl⟩ := h
      exact ⟨hf.1, hf.2.1⟩
  · simp only [Option.some.injEq, Prod.mk.injEq] at h
    obtain ⟨-, rfl⟩ := h
    simp

theorem oneshot_write_steps {cp : child_pipes_t} {payload : Option (List Byte)} {len : Nat}
    {t : Int} {writes : List WriteRes} {w : World} {r : Int} {v : World}
    (h : oneshot_write cp payload len t writes w = some (r, v)) :
    Steps (Event.is_stdin_step cp.in_w) w v := by
  unfold oneshot_write at h
  split at h
  · split at h
    · unfold write_all at h
      split at h
      · simp at h
      · next d w1 hd =>
        have hf := compute_deadline_frame hd
        exact (Steps.of_eq hf.2 hf.1).trans (write_loop_steps _ _ _ _ _ _ _ _ _ h)
    · simp only [Option.some.injEq, Prod.mk.injEq] at h
      obtain ⟨-, rfl⟩ := h
      exact Steps.refl _ _
  · simp only [Option.some.injEq, Prod.mk.injEq] at h
    obtain ⟨-, rfl⟩ := h
    exact Steps.refl _ _

theorem oneshot_read_steps {cp : child_pipes_t} {t : Int} {polls : List PollRes} {w : World}
    {x : LoopExit} {bo be : dynbuf_t} {v : World}
    (h : oneshot_read cp t polls w = some (x, bo, be, v)) :
    Steps Event.is_read_step w v := by
  unfold oneshot_read at h
  simp only at h
  split at h
  · simp at h
  · next d w2 hd =>
    have hf := compute_deadline_frame hd
    have s1 : Steps Event.is_read_step w (sys_close cp.in_w w) := sys_close_steps _ _ rfl
    exact (s1.trans (Steps.of_eq hf.2 hf.1)).trans (read_loop_steps _ _ _ _ _ _ _ _ _ _ _ _ h)

theorem oneshot_read_log {cp : child_pipes_t} {t : Int} {polls : List PollRes} {w : World}
    {x : LoopExit} {bo be : dynbuf_t} {v : World}
    (h : oneshot_read cp t polls w = some (x, bo, be, v)) :
    ∃ evs, v.log = w.log ++ Event.close cp.in_w :: evs ∧ ∀ e ∈ evs, e.is_read_step = true := by
  unfold oneshot_read at h
  simp only at h
  split at h
  · simp at h
  · next d w2 hd =>
    have hf := compute_deadline_frame hd
    obtain ⟨-, evs, hl, hp⟩ := read_loop_steps _ _ _ _ _ _ _ _ _ _ _ _ h
    refine ⟨evs, ?_, hp⟩
    rw [hl, hf.1]
    simp [sys_close]

theorem sys_waitpid_log {pid : Int} {nh : Bool} {w : World} {ret : Int} {st : Option Int}
    {v : World} (h : sys_waitpid pid nh w = some (ret, st, v)) :
    v.log = w.log ++ [Event.waitpid pid nh] := by
  unfold sys_waitpid at h
  simp only at h
  split at h
  · simp at h
  · simp only [Option.some.injEq, Prod.mk.injEq] at h
    obtain ⟨-, -, rfl⟩ := h
    simp [World.emit]
  · split at h
    · simp only [Option.some.injEq, Prod.mk.injEq] at h
      obtain ⟨-, -, rfl⟩ := h
      simp [World.emit]
    · simp at h
  · simp only [Option.some.injEq, Prod.mk.injEq] at h
    obtain ⟨-, -, rfl⟩ := h
    simp [World.emit]

theorem sys_waitpid_exited {pid : Int} {nh : Bool} {w : World} {s : Int} {rest : List WaitRes}
    (h : w.waits = WaitRes.exited s :: rest) :
    sys_waitpid pid nh w = some (pid, some s,
      { w.emit (Event.waitpid pid nh) with waits := rest, child := ChildState.reaped }) := by
  simp [sys_waitpid, World.emit, h]

theorem oneshot_fail_spec {cp : child_pipes_t} {res : oneshot_result_t} {bo be : dynbuf_t}
    {w : World} {ret : Int} {r : Option oneshot_result_t} {v : World}
    (h : oneshot_fail cp res bo be w = some (ret, r, v)) :
    ret = -1 ∧ r = some res ∧ v.log = w.log ++ [Event.waitpid cp.pid true] ∧
      v.errno = w.errno := by
  unfold oneshot_fail at h
  simp only at h
  split at h
  · simp at h
  · next hw =>
    have hl := sys_waitpid_log hw
    simp only [Option.some.injEq, Prod.mk.injEq] at h
    obtain ⟨rfl, rfl, rfl⟩ := h
    exact ⟨rfl, rfl, hl, rfl⟩

theorem oneshot_fail_total (cp : child_pipes_t) (res : oneshot_result_t) (bo be : dynbuf_t)
    {w : World} {x : WaitRes} {rest : List WaitRes} (h : w.waits = x :: rest) :
    ∃ v, oneshot_fail cp res bo be w = some (-1, some res, v) ∧
      v.child = (if x.is_exited = true then ChildState.reaped else w.child) := by
  cases x with
  | exited s => simp [oneshot_fail, sys_waitpid, World.emit, h, WaitRes.is_exited]
  | alive => simp [oneshot_fail, sys_waitpid, World.emit, h, WaitRes.is_exited]
  | err e => simp [oneshot_fail, sys_waitpid, World.emit, h, WaitRes.is_exited]

theorem oneshot_timeout_spec {cp : child_pipes_t} {res : oneshot_result_t} {bo be : dynbuf_t}
    {w : World} {ret : Int} {r : Option oneshot_result_t} {v : World}
    (h : oneshot_timeout cp res bo be w = some (ret, r, v)) :
    ret = -1 ∧ r = some res ∧ v.log = w.log ++ [Event.kill cp.pid SIGTERM, Event.sleep 200,
      Event.kill cp.pid SIGKILL, Event.waitpid cp.pid false, Event.waitpid cp.pid true] := by
  unfold oneshot_timeout at h
  simp only at h
  split at h
  · simp at h
  · next hw =>
    have hl := sys_waitpid_log hw
    obtain ⟨h1, h2, h3, -⟩ := oneshot_fail_spec h
    refine ⟨h1, h2, ?_⟩
    rw [h3, hl]
    simp [sys_kill, World.emit]

theorem oneshot_timeout_total (cp : child_pipes_t) (res : oneshot_result_t) (bo be : dynbuf_t)
    {w : World} {s : Int} {x : WaitRes} {rest : List WaitRes}
    (h : w.waits = WaitRes.exited s :: x :: rest) :
    ∃ v, oneshot_timeout cp res bo be w = some (-1, some res, v) ∧
      v.child = ChildState.reaped := by
  have hw : (sys_kill cp.pid SIGKILL ((sys_kill cp.pid SIGTERM w).emit (Event.sleep 200))).waits
      = WaitRes.exited s :: x :: rest := by
    simp [sys_kill, World.emit, h]
  unfold oneshot_timeout
  simp only [sys_waitpid_exited hw]
  obtain ⟨v, hv, hc⟩ := @oneshot_fail_total cp res bo be
    { (sys_kill cp.pid SIGKILL ((sys_kill cp.pid SIGTERM w).emit (Event.sleep 200))).emit
      (Event.waitpid cp.pid false) with waits := x :: rest, child := ChildState.reaped }
    x rest rfl
  refine ⟨v, hv, ?_⟩
  rw [hc]
  split <;> rfl

theorem oneshot_success_spec {cp : child_pipes_t} {bo be : dynbuf_t} {w : World} {ret : Int}
    {r : Option oneshot_result_t} {v : World}
    (h : oneshot_success cp bo be w = some (ret, r, v)) :
    ret = 0 ∧ v.log = w.log ++ [Event.waitpid cp.pid false] := by
  unfold oneshot_success at h
  split at h
  · simp at h
  · next hw =>
    have hl := sys_waitpid_log hw
    simp only [Option.some.injEq, Prod.mk.injEq] at h
    obtain ⟨rfl, -, rfl⟩ := h
    exact ⟨rfl, hl⟩

theorem write_all_soft {fd : Int} {buf : List Byte} {t : Int} {writes : List WriteRes}
    {w : World} {r : Int} {v : World} (ht : t < 0) (hs : ∀ x ∈ writes, x.soft = true)
    (h : write_all fd buf buf.length t writes w = some (r, v)) :
    r = 0 ∧ ∃ evs, v.log = w.log ++ evs ∧ (∀ e ∈ evs, e.is_stdin_step fd = true) ∧
      written_bytes evs = buf := by
  have hnt : ¬ t ≥ 0 := by omega
  simp only [write_all, compute_deadline, hnt, if_false] at h
  obtain ⟨hr, -, evs, hl, hp, hb⟩ :=
    write_loop_soft fd buf (-1) (by decide) writes 0 buf.length w r v hs h
  exact ⟨hr, evs, hl, hp, by simpa using hb⟩

theorem write_all_total (fd : Int) (buf : List Byte) {t : Int} {writes : List WriteRes}
    (w : World) (ht : t < 0) (hs : ∀ x ∈ writes, x.soft = true)
    (hle : buf.length ≤ accepted_total writes) :
    ∃ v, write_all fd buf buf.length t writes w = some (0, v) := by
  have hnt : ¬ t ≥ 0 := by omega
  simp only [write_all, compute_deadline, hnt, if_false]
  exact write_loop_total fd buf (-1) (by decide) writes 0 buf.length w hs hle

theorem read_step_not_write (e : Event) (h : e.is_read_step = true) : e.is_write = false := by
  cases e <;> simp_all [Event.is_read_step, Event.is_write]

/-- C2: with a payload of `stdin_len > 0` bytes, an unbounded timeout and write
results that are partial writes, interruptions or would-block, (1) once the
descriptor has taken as many bytes as the payload has, the write phase of
`run_oneshot` returns 0 after handing the child exactly the payload, in order;
(2) in every run that returns, the log reads: the writes, whose bytes are the
payload, then the close of the stdin descriptor, then no write at all. -/
theorem oneshot_stdin_delivery (c : String) (av : List String) (payload : List Byte)
    (timeout_ms : Int) (res0 : oneshot_result_t) (writes : List WriteRes)
    (polls : List PollRes) (w w1 : World) (cp : child_pipes_t)
    (hpos : 0 < payload.length) (ht : timeout_ms < 0)
    (hsoft : ∀ x ∈ writes, x.soft = true)
    (hspawn : spawn_with_pipes c av (w.emit (Event.signal_ign SIGPIPE)) = some (0, some cp, w1)) :
    (payload.length ≤ accepted_total writes →
      ∃ w2 evs, oneshot_write cp (some payload) payload.length timeout_ms writes w1
          = some (0, w2) ∧
        w2.log = w1.log ++ evs ∧ written_bytes evs = payload ∧
        (∀ e ∈ evs, e.is_stdin_step cp.in_w = true)) ∧
    (∀ ret r v,
      run_oneshot (some c) (some av) (some payload) payload.length timeout_ms (some res0)
        writes polls w = some (ret, r, v) →
      ∃ evs post, v.log = w1.log ++ evs ++ Event.close cp.in_w :: post ∧
        written_bytes evs = payload ∧
        (∀ e ∈ evs, e.is_stdin_step cp.in_w = true) ∧
        (∀ e ∈ post, e.is_write = false)) := by
  have hne : payload.length ≠ 0 := by omega
  constructor
  · intro hle
    obtain ⟨v, hv⟩ := write_all_total cp.in_w payload w1 ht hsoft hle
    obtain ⟨-, evs, hl, hp, hb⟩ := write_all_soft ht hsoft hv
    exact ⟨v, evs, by simp [oneshot_write, hne, hv], hl, hb, hp⟩
  · intro ret r v h
    have hwr : oneshot_write cp (some payload) payload.length timeout_ms writes w1
        = write_all cp.in_w payload payload.length timeout_ms writes w1 := by
      simp [oneshot_write, hne]
    simp only [run_oneshot, hspawn, hwr, lt_self_iff_false, if_false] at h
    split at h
    · simp at h
    · next wr w2 hw =>
      obtain ⟨hr, evs, hl, hp, hb⟩ := write_all_soft ht hsoft hw
      subst hr
      simp only [lt_self_iff_false, if_false] at h
      unfold oneshot_finish at h
      split at h
      · simp at h
      · next bo be w3 hrd =>
        obtain ⟨ev2, hl2, hp2⟩ := oneshot_read_log hrd
        obtain ⟨-, hl3⟩ := oneshot_success_spec h
        refine ⟨evs, ev2 ++ [Event.waitpid cp.pid false], ?_, hb, hp, ?_⟩
        · rw [hl3, hl2, hl]; simp
        · intro e he
          rcases List.mem_append.mp he with h1 | h1
          · exact read_step_not_write e (hp2 e h1)
          · simp only [List.mem_singleton] at h1
            subst h1; rfl
      · next bo be w3 hrd =>
        obtain ⟨ev2, hl2, hp2⟩ := oneshot_read_log hrd
        obtain ⟨-, -, hl3⟩ := oneshot_timeout_spec h
        refine ⟨evs, ev2 ++ [Event.kill cp.pid SIGTERM, Event.sleep 200,
          Event.kill cp.pid SIGKILL, Event.waitpid cp.pid false, Event.waitpid cp.pid true],
          ?_, hb, hp, ?_⟩
        · rw [hl3, hl2, hl]; simp
        · intro e he
          rcases List.mem_append.mp he with h1 | h1
          · exact read_step_not_write e (hp2 e h1)
          · simp only [List.mem_cons, List.mem_singleton, List.not_mem_nil, or_false] at h1
            rcases h1 with rfl | rfl | rfl | rfl | rfl <;> rfl
      · next bo be w3 hrd =>
        obtain ⟨ev2, hl2, hp2⟩ := oneshot_read_log hrd
        obtain ⟨-, -, hl3, -⟩ := oneshot_fail_spec h
        refine ⟨evs, ev2 ++ [Event.waitpid cp.pid true], ?_, hb, hp, ?_⟩
        · rw [hl3, hl2, hl]; simp
        · intro e he
          rcases List.mem_append.mp he with h1 | h1
          · exact read_step_not_write e (hp2 e h1)
          · simp only [List.mem_singleton] at h1
            subst h1; rfl

theorem spawn_with_pipes_child {c : String} {av : List String} {w : World} {r : Int}
    {cp : child_pipes_t} {v : World} (h : spawn_with_pipes c av w = some (r, some cp, v)) :
    v.child = ChildState.unreaped := by
  unfold spawn_with_pipes at h
  split at h
  · simp at h
  · split at h
    · simp at h
    · split at h
      · simp at h
      · split at h
        · simp at h
        · split at h
          · simp at h
          · split at h
            · simp at h
            · split at h
              · simp at h
              · simp only at h
                split at h
                · simp at h
                · split at h
                  · simp at h
                  · simp only [Option.some.injEq, Prod.mk.injEq] at h
                    obtain ⟨-, -, rfl⟩ := h
                    simp [set_nonblock, sys_close, World.emit]

theorem run_oneshot_at_timeout {c : String} {av : List String} {payload : Option (List Byte)}
    {stdin_len : Nat} {timeout_ms : Int} {res0 : oneshot_result_t} {writes : List WriteRes}
    {polls : List PollRes} {w w1 w2 w3 : World} {cp : child_pipes_t} {bout berr : dynbuf_t}
    (hspawn : spawn_with_pipes c av (w.emit (Event.signal_ign SIGPIPE)) = some (0, some cp, w1))
    (hwrite : oneshot_write cp payload stdin_len timeout_ms writes w1 = some (0, w2))
    (hread : oneshot_read cp timeout_ms polls w2 = some (LoopExit.timeout, bout, berr, w3)) :
    run_oneshot (some c) (some av) payload stdin_len timeout_ms (some res0) writes polls w
      = oneshot_timeout cp result_zero bout berr w3 := by
  simp only [run_oneshot, hspawn, hwrite, hread, lt_self_iff_false, if_false, oneshot_finish]

theorem run_oneshot_at_fail {c : String} {av : List String} {payload : Option (List Byte)}
    {stdin_len : Nat} {timeout_ms : Int} (res0 : oneshot_result_t) {writes : List WriteRes}
    {polls : List PollRes} {w w1 wf : World} {cp : child_pipes_t}
    (hspawn : spawn_with_pipes c av (w.emit (Event.signal_ign SIGPIPE)) = some (0, some cp, w1))
    (hfail : (∃ n, n < 0 ∧
        oneshot_write cp payload stdin_len timeout_ms writes w1 = some (n, wf)) ∨
      (∃ w2 bo be, oneshot_write cp payload stdin_len timeout_ms writes w1 = some (0, w2) ∧
        oneshot_read cp timeout_ms polls w2 = some (LoopExit.fail, bo, be, wf))) :
    (∃ bo be, run_oneshot (some c) (some av) payload stdin_len timeout_ms (some res0) writes
      polls w = oneshot_fail cp result_zero bo be wf) ∧ wf.child = ChildState.unreaped := by
  have hc1 := spawn_with_pipes_child hspawn
  rcases hfail with ⟨n, hn, hw⟩ | ⟨w2, bo, be, hw, hr⟩
  · refine ⟨⟨db_init, db_init, ?_⟩, ?_⟩
    · simp only [run_oneshot, hspawn, hw, hn, lt_self_iff_false, if_false, if_true]
    · rw [(oneshot_write_steps hw).1, hc1]
  · refine ⟨⟨bo, be, ?_⟩, ?_⟩
    · simp only [run_oneshot, hspawn, hw, hr, lt_self_iff_false, if_false, oneshot_finish]
    · rw [(oneshot_read_steps hr).1, (oneshot_write_steps hw).1, hc1]

/-- C5: when the read loop of `run_oneshot` is left through its deadline, every
run that returns has returned -1 with `*res` all zero (NULL buffers, lengths 0,
whatever was captured) after exactly these actions, in this order: SIGTERM, the
200 ms wait, SIGKILL, the blocking wait, the non-blocking wait of the failure
path; and when the blocking wait finds the child terminated the call does return,
with the child reaped. -/
theorem oneshot_timeout_escalation (c : String) (av : List String)
    (payload : Option (List Byte)) (stdin_len : Nat) (timeout_ms : Int)
    (res0 : oneshot_result_t) (writes : List WriteRes) (polls : List PollRes)
    (w w1 w2 w3 : World) (cp : child_pipes_t) (bout berr : dynbuf_t)
    (hspawn : spawn_with_pipes c av (w.emit (Event.signal_ign SIGPIPE)) = some (0, some cp, w1))
    (hwrite : oneshot_write cp payload stdin_len timeout_ms writes w1 = some (0, w2))
    (hread : oneshot_read cp timeout_ms polls w2 = some (LoopExit.timeout, bout, berr, w3)) :
    (∀ ret r v,
      run_oneshot (some c) (some av) payload stdin_len timeout_ms (some res0) writes polls w
        = some (ret, r, v) →
      ret = -1 ∧ r = some result_zero ∧
      v.log = w3.log ++ [Event.kill cp.pid SIGTERM, Event.sleep 200, Event.kill cp.pid SIGKILL,
        Event.waitpid cp.pid false, Event.waitpid cp.pid true]) ∧
    (∀ st x rest, w3.waits = WaitRes.exited st :: x :: rest →
      ∃ v, run_oneshot (some c) (some av) payload stdin_len timeout_ms (some res0) writes polls w
        = some (-1, some result_zero, v) ∧ v.child = ChildState.reaped) := by
  rw [run_oneshot_at_timeout hspawn hwrite hread]
  exact ⟨fun ret r v h => oneshot_timeout_spec h,
    fun st x rest hw => oneshot_timeout_total cp result_zero bout berr hw⟩

/-- C6 (as amended): when `run_oneshot` fails after the spawn for a cause other
than the read-loop deadline (the stdin write fails or times out, `poll` fails, a
read fails), its last action is one non-blocking `waitpid` on the child, errno is
the errno of the failure, and the child is reaped by that wait exactly when it had
already terminated; a child that still runs is left running and unreaped. -/
theorem oneshot_failure_reap_attempt (c : String) (av : List String)
    (payload : Option (List Byte)) (stdin_len : Nat) (timeout_ms : Int)
    (res0 : oneshot_result_t) (writes : List WriteRes) (polls : List PollRes)
    (w w1 wf : World) (cp : child_pipes_t) (x : WaitRes) (rest : List WaitRes)
    (hspawn : spawn_with_pipes c av (w.emit (Event.signal_ign SIGPIPE)) = some (0, some cp, w1))
    (hfail : (∃ n, n < 0 ∧
        oneshot_write cp payload stdin_len timeout_ms writes w1 = some (n, wf)) ∨
      (∃ w2 bo be, oneshot_write cp payload stdin_len timeout_ms writes w1 = some (0, w2) ∧
        oneshot_read cp timeout_ms polls w2 = some (LoopExit.fail, bo, be, wf)))
    (hwait : wf.waits = x :: rest) :
    ∃ v, run_oneshot (some c) (some av) payload stdin_len timeout_ms (some res0) writes polls w
        = some (-1, some result_zero, v) ∧
      v.log = wf.log ++ [Event.waitpid cp.pid true] ∧ v.errno = wf.errno ∧
      (v.child = ChildState.reaped ↔ x.is_exited = true) ∧
      (x.is_exited = false → v.child = ChildState.unreaped) := by
  obtain ⟨⟨bo, be, hrun⟩, hchild⟩ := run_oneshot_at_fail res0 hspawn hfail
  obtain ⟨v, hv, hc⟩ := oneshot_fail_total cp result_zero bo be hwait
  obtain ⟨-, -, hl, he⟩ := oneshot_fail_spec hv
  refine ⟨v, hrun.trans hv, hl, he, ?_, ?_⟩
  · rw [hc, hchild]
    cases x.is_exited <;> simp
  · intro hx
    rw [hc, hchild, hx]
    simp

/-- C6 (fails as stated): the stdin write fails with EPIPE while the child is
still running; `run_oneshot` returns -1 and the child has not been reaped. -/
theorem oneshot_failure_leaves_child_unreaped :
    (run_oneshot (some "cat") (some ["cat"]) (some [1, 2, 3]) 3 (-1) (some result_zero)
      [WriteRes.accepted 1, WriteRes.err EPIPE] [] c6_world).map
        (fun r => (r.1, r.2.2.child, r.2.2.errno)) = some (-1, ChildState.unreaped, EPIPE) := by
  decide

/-- C7 (as amended): `run_oneshot` called with a NULL command, a NULL argument
vector or a NULL result target returns -1 with errno EINVAL and does nothing
else: no process is spawned and `*res` is not touched. -/
theorem run_oneshot_null_argument (cmd : Option String) (argv : Option (List String))
    (payload : Option (List Byte)) (stdin_len : Nat) (timeout_ms : Int)
    (res : Option oneshot_result_t) (writes : List WriteRes) (polls : List PollRes) (w : World)
    (h : cmd = none ∨ argv = none ∨ res = none) :
    run_oneshot cmd argv payload stdin_len timeout_ms res writes polls w
      = some (-1, res, { w with errno := EINVAL }) := by
  rcases h with rfl | rfl | rfl
  · simp [run_oneshot]
  · cases cmd <;> simp [run_oneshot]
  · cases cmd <;> cases argv <;> simp [run_oneshot]

/-- C7 (fails as stated): with the empty string as command `run_oneshot` forks a
child, in which the exec fails, and returns 0 with exit code 127; errno is not
set to EINVAL. -/
theorem run_oneshot_empty_command_spawns :
    (run_oneshot (some "") (some [""]) none 0 (-1) (some result_zero) [] [poll_both]
      c7_world).map (fun r => (r.1, r.2.1.map (fun x => x.exit_code),
        decide (Event.fork 4242 "" [""] ∈ r.2.2.log), r.2.2.errno))
      = some (0, some 127, true, 0) := by
  decide

/-- The deadline each phase of `run_oneshot` hands to its loop: the clock reading
at the start of the phase plus `timeout_ms`. -/
theorem oneshot_phase_deadlines (c : String) (av : List String) (payload : List Byte)
    (stdin_len : Nat) (timeout_ms : Int) (res0 : oneshot_result_t) (writes : List WriteRes)
    (polls : List PollRes) (w w1 w2 : World) (cp : child_pipes_t) (t0 t1 : Int)
    (c0 c1 : List Int)
    (ht : 0 ≤ timeout_ms) (hlen : stdin_len ≠ 0)
    (hspawn : spawn_with_pipes c av (w.emit (Event.signal_ign SIGPIPE)) = some (0, some cp, w1))
    (h0 : w1.clock = t0 :: c0)
    (hwrite : oneshot_write cp (some payload) stdin_len timeout_ms writes w1 = some (0, w2))
    (h1 : w2.clock = t1 :: c1) :
    oneshot_write cp (some payload) stdin_len timeout_ms writes w1
      = write_loop cp.in_w payload (t0 + timeout_ms) writes 0 stdin_len
          { w1 with clock := c0 } ∧
    run_oneshot (some c) (some av) (some payload) stdin_len timeout_ms (some res0) writes polls w
      = oneshot_finish cp
          (read_loop (t1 + timeout_ms) polls { fd := cp.out_r, revents := false }
            { fd := cp.err_r, revents := false } 2 db_init db_init
            { sys_close cp.in_w w2 with clock := c1 }) := by
  constructor
  · simp [oneshot_write, hlen, write_all, compute_deadline, ht, now_ms, h0]
  · have hr : oneshot_read cp timeout_ms polls w2
        = read_loop (t1 + timeout_ms) polls { fd := cp.out_r, revents := false }
          { fd := cp.err_r, revents := false } 2 db_init db_init
          { sys_close cp.in_w w2 with clock := c1 } := by
      simp [oneshot_read, compute_deadline, ht, now_ms, sys_close, h1]
    simp only [run_oneshot, hspawn, hwrite, hr, lt_self_iff_false, if_false]

/-- C9 (fails as stated): with a timeout of 100 ms the stdin phase starts at clock
0, so its deadline is 100; it ends at clock 60 and the read loop gets the deadline
160.  At clock 120, past the deadline of the stdin phase, the loop polls for the
40 ms that remain and the call returns 0. -/
theorem oneshot_read_deadline_restarts :
    (compute_deadline 100 (spawned_world "cat" ["cat"] c9_world)).map Prod.fst = some 100 ∧
    (compute_deadline 100 (sys_close std_cp.in_w (written_world std_cp (some [7]) 1 100
      c9_writes (spawned_world "cat" ["cat"] c9_world)))).map Prod.fst = some 160 ∧
    (run_oneshot (some "cat") (some ["cat"]) (some [7]) 1 100 (some result_zero) c9_writes
      [poll_both] c9_world).map (fun r => (r.1, decide (Event.poll 40 ∈ r.2.2.log)))
      = some (0, true) := by
  decide

theorem steps_ite_emit {P : Event → Bool} (c : Prop) [Decidable c] (w : World) (e : Event)
    (h : P e = true) : Steps P w (if c then w.emit e else w) := by
  split
  · exact Steps.emit _ _ h
  · exact Steps.refl _ _

theorem session_drain_steps (i : Nat) (cb : cli_callbacks_t) :
    ∀ (rs : List ReadRes) (w : World) (n : Int) (rest : List ReadRes) (v : World),
      session_drain i cb rs w = some (n, rest, v) → Steps Event.is_monitor_step w v := by
  intro rs
  induction rs with
  | nil => intro w n rest v h; simp [session_drain] at h
  | cons r rs ih =>
    intro w n rest v h
    cases r with
    | data chunk =>
      unfold session_drain at h
      split at h
      · have s1 := steps_ite_emit (P := Event.is_monitor_step) (i = 0 ∧ cb.on_stdout = true) w
          (Event.on_stdout chunk) rfl
        have s2 := steps_ite_emit (P := Event.is_monitor_step) (i = 1 ∧ cb.on_stderr = true)
          (if i = 0 ∧ cb.on_stdout = true then w.emit (Event.on_stdout chunk) else w)
          (Event.on_stderr chunk) rfl
        exact (s1.trans s2).trans (ih _ _ _ _ h)
      · simp only [Option.some.injEq, Prod.mk.injEq] at h
        obtain ⟨-, -, rfl⟩ := h
        exact Steps.refl _ _
    | err e =>
      unfold session_drain at h
      simp only [Option.some.injEq, Prod.mk.injEq] at h
      obtain ⟨-, -, rfl⟩ := h
      exact Steps.of_eq rfl rfl

theorem session_scan_steps {i : Nat} {cb : cli_callbacks_t} {p : pollfd} {opn : Int}
    {w : World} {q : pollfd} {opn1 : Int} {v : World}
    (h : session_scan i cb p opn w = some (q, opn1, v)) :
    Steps Event.is_monitor_step w v := by
  unfold session_scan at h
  split at h
  · simp only [Option.some.injEq, Prod.mk.injEq] at h
    obtain ⟨-, -, rfl⟩ := h
    exact Steps.refl _ _
  · split at h
    · split at h
      · simp at h
      · next n rest w1 hd =>
        have s1 := session_drain_steps i cb _ _ _ _ _ hd
        have s2 : Steps Event.is_monitor_step w (w1.set_reads i rest) :=
          s1.trans (Steps.of_eq (set_reads_log w1 i rest).2 (set_reads_log w1 i rest).1)
        split at h
        · simp only [Option.some.injEq, Prod.mk.injEq] at h
          obtain ⟨-, -, rfl⟩ := h
          exact s2.trans (sys_close_steps _ _ rfl)
        · simp only [Option.some.injEq, Prod.mk.injEq] at h
          obtain ⟨-, -, rfl⟩ := h
          exact s2
    · simp only [Option.some.injEq, Prod.mk.injEq] at h
      obtain ⟨-, -, rfl⟩ := h
      exact Steps.refl _ _

theorem session_loop_steps (cb : cli_callbacks_t) :
    ∀ (loads : List Bool) (polls : List PollRes) (p0 p1 : pollfd) (opn : Int) (w v : World),
      session_loop cb loads polls p0 p1 opn w = some v → Steps Event.is_monitor_step w v := by
  intro loads
  induction loads with
  | nil => intro polls p0 p1 opn w v h; simp [session_loop] at h
  | cons b more ih =>
    intro polls p0 p1 opn w v h
    unfold session_loop at h
    split at h
    · split at h
      · simp at h
      · next p ps1 =>
        have s1 : Steps Event.is_monitor_step w (sys_poll 2000 p w) := sys_poll_steps _ _ _ rfl
        simp only at h
        split at h
        · split at h
          · exact s1.trans (ih _ _ _ _ _ _ h)
          · simp only [Option.some.injEq] at h
            subst h
            exact s1
        · split at h
          · exact s1.trans (ih _ _ _ _ _ _ h)
          · split at h
            · simp only [Option.some.injEq] at h
              subst h
              exact s1
            · split at h
              · simp at h
              · next hs0 =>
                split at h
                · simp at h
                · next hs1 =>
                  exact ((s1.trans (session_scan_steps hs0)).trans
                    (session_scan_steps hs1)).trans (ih _ _ _ _ _ _ h)
    · simp only [Option.some.injEq] at h
      subst h
      exact Steps.refl _ _

theorem on_exit_count_append (a b : List Event) :
    on_exit_count (a ++ b) = on_exit_count a + on_exit_count b := by
  induction a with
  | nil => simp [on_exit_count]
  | cons e a ih => cases e <;> simp [on_exit_count, ih, Nat.add_right_comm]

theorem on_exit_count_monitor (evs : List Event) (h : ∀ e ∈ evs, e.is_monitor_step = true) :
    on_exit_count evs = 0 := by
  induction evs with
  | nil => rfl
  | cons e evs ih =>
    have he := h e (List.mem_cons_self _ _)
    have ih2 := ih (fun x hx => h x (List.mem_cons_of_mem _ hx))
    cases e <;> simp_all [on_exit_count, Event.is_monitor_step]

/-- C10: with an on-exit slot present, (1) every run of `session_thread` that
returns has done, after the actions of its loop (polls, closes, stdout and stderr
callbacks), exactly the blocking wait on the child and then one call of on-exit,
which is its last action and its only call of on-exit; (2) however the loop is
left, when the blocking wait finds the child terminated the thread returns, the
child is reaped, and on-exit gets the exit code of that status. -/
theorem session_on_exit_once (s : cli_session) (loads : List Bool) (polls : List PollRes)
    (w : World) (hcb : s.cb.on_exit = true) :
    (∀ v, session_thread s loads polls w = some v →
      ∃ pre code, v.log = w.log ++ pre ++ [Event.waitpid s.cp.pid false, Event.on_exit code] ∧
        (∀ e ∈ pre, e.is_monitor_step = true) ∧
        on_exit_count v.log = on_exit_count w.log + 1) ∧
    (∀ w1 st rest,
      session_loop s.cb loads polls { fd := s.cp.out_r, revents := false }
        { fd := s.cp.err_r, revents := false } 2 w = some w1 →
      w1.waits = WaitRes.exited st :: rest →
      ∃ v, session_thread s loads polls w = some v ∧ v.child = ChildState.reaped ∧
        v.log = w1.log ++ [Event.waitpid s.cp.pid false,
          Event.on_exit (session_exit_code st)]) := by
  constructor
  · intro v h
    unfold session_thread at h
    split at h
    · simp at h
    · next w1 hloop =>
      obtain ⟨-, pre, hl, hp⟩ := session_loop_steps _ _ _ _ _ _ _ _ hloop
      split at h
      · simp at h
      · next ret st w2 hw =>
        have hl2 := sys_waitpid_log hw
        simp only [hcb, if_true, Option.some.injEq] at h
        subst h
        refine ⟨pre, session_exit_code (st.getD w1.uninit_status), ?_, hp, ?_⟩
        · simp [World.emit, hl2, hl]
        · simp only [World.emit, hl2, hl, on_exit_count_append, on_exit_count,
            on_exit_count_monitor pre hp]
  · intro w1 st rest hloop hw
    refine ⟨World.emit { w1.emit (Event.waitpid s.cp.pid false) with
      waits := rest, child := ChildState.reaped } (Event.on_exit (session_exit_code st)),
      ?_, ?_, ?_⟩
    · simp only [session_thread, hloop, sys_waitpid_exited hw, hcb, if_true, Option.getD_some]
    · simp [World.emit]
    · simp [World.emit]

theorem run_oneshot_at_done {c : String} {av : List String} {payload : Option (List Byte)}
    {stdin_len : Nat} {timeout_ms : Int} {res0 : oneshot_result_t} {writes : List WriteRes}
    {polls : List PollRes} {w w1 w2 w3 : World} {cp : child_pipes_t} {bout berr : dynbuf_t}
    (hspawn : spawn_with_pipes c av (w.emit (Event.signal_ign SIGPIPE)) = some (0, some cp, w1))
    (hwrite : oneshot_write cp payload stdin_len timeout_ms writes w1 = some (0, w2))
    (hread : oneshot_read cp timeout_ms polls w2 = some (LoopExit.done, bout, berr, w3)) :
    run_oneshot (some c) (some av) payload stdin_len timeout_ms (some res0) writes polls w
      = oneshot_success cp bout berr w3 := by
  simp only [run_oneshot, hspawn, hwrite, hread, lt_self_iff_false, if_false, oneshot_finish]

theorem oneshot_success_exited (cp : child_pipes_t) (bo be : dynbuf_t) {w : World} {st : Int}
    {rest : List WaitRes} (h : w.waits = WaitRes.exited st :: rest) :
    oneshot_success cp bo be w = some (0,
      some { exit_code := oneshot_exit_code st, out := bo.data, out_len := bo.len,
             err := be.data, err_len := be.len },
      { w.emit (Event.waitpid cp.pid false) with waits := rest, child := ChildState.reaped }) := by
  simp only [oneshot_success, sys_waitpid_exited h, Option.getD_some]

/-- C3: for every wait status, `run_oneshot` and the session monitor compute the
same exit code: the exit status, a value in 0..255, when the child exited
normally; 128 plus the signal number when it was killed by a signal; -1
otherwise.  A successful `run_oneshot` stores that code in `res->exit_code`, and
the monitor thread hands it to on-exit as its last action. -/
theorem exit_code_mapping (status : Int) :
    oneshot_exit_code status = session_exit_code status ∧
    (WIFEXITED status = true →
      oneshot_exit_code status = WEXITSTATUS status ∧
      0 ≤ WEXITSTATUS status ∧ WEXITSTATUS status ≤ 255) ∧
    (WIFEXITED status = false → WIFSIGNALED status = true →
      oneshot_exit_code status = 128 + WTERMSIG status) ∧
    (WIFEXITED status = false → WIFSIGNALED status = false → oneshot_exit_code status = -1) ∧
    (∀ (c : String) (av : List String) (payload : Option (List Byte)) (stdin_len : Nat)
        (timeout_ms : Int) (res0 : oneshot_result_t) (writes : List WriteRes)
        (polls : List PollRes) (w w1 w2 w3 : World) (cp : child_pipes_t)
        (bout berr : dynbuf_t) (rest : List WaitRes),
      spawn_with_pipes c av (w.emit (Event.signal_ign SIGPIPE)) = some (0, some cp, w1) →
      oneshot_write cp payload stdin_len timeout_ms writes w1 = some (0, w2) →
      oneshot_read cp timeout_ms polls w2 = some (LoopExit.done, bout, berr, w3) →
      w3.waits = WaitRes.exited status :: rest →
      ∃ res v, run_oneshot (some c) (some av) payload stdin_len timeout_ms (some res0) writes
          polls w = some (0, some res, v) ∧ res.exit_code = oneshot_exit_code status) ∧
    (∀ (s : cli_session) (loads : List Bool) (polls : List PollRes) (w w1 : World)
        (rest : List WaitRes),
      s.cb.on_exit = true →
      session_loop s.cb loads polls { fd := s.cp.out_r, revents := false }
        { fd := s.cp.err_r, revents := false } 2 w = some w1 →
      w1.waits = WaitRes.exited status :: rest →
      ∃ v, session_thread s loads polls w = some v ∧
        v.log.getLast? = some (Event.on_exit (session_exit_code status))) := by
  refine ⟨rfl, ?_, ?_, ?_, ?_, ?_⟩
  · intro h
    refine ⟨by simp [oneshot_exit_code, h], ?_, ?_⟩
    · unfold WEXITSTATUS; omega
    · unfold WEXITSTATUS; omega
  · intro h1 h2
    simp [oneshot_exit_code, h1, h2]
  · intro h1 h2
    simp [oneshot_exit_code, h1, h2]
  · intro c av payload stdin_len timeout_ms res0 writes polls w w1 w2 w3 cp bout berr rest
      hspawn hwrite hread hw
    rw [run_oneshot_at_done hspawn hwrite hread]
    exact ⟨_, _, oneshot_success_exited cp bout berr hw, rfl⟩
  · intro s loads polls w w1 rest hcb hloop hw
    refine ⟨World.emit { w1.emit (Event.waitpid s.cp.pid false) with
      waits := rest, child := ChildState.reaped } (Event.on_exit (session_exit_code status)),
      ?_, ?_⟩
    · simp only [session_thread, hloop, sys_waitpid_exited hw, hcb, if_true, Option.getD_some]
    · simp [World.emit]

/-- C3 at work: a child killed by SIGKILL has wait status 9 and exit code 137. -/
theorem exit_code_mapping_witness :
    oneshot_exit_code 9 = 128 + WTERMSIG 9 ∧ session_exit_code 9 = 137 :=
  ⟨(exit_code_mapping 9).2.2.1 (by decide) (by decide),
   (exit_code_mapping 9).1.symm.trans (by decide)⟩

/-- C2 at work: the payload 1, 2, 3 goes out in two writes around a full pipe and
an interruption. -/
theorem oneshot_stdin_delivery_witness :
    ∃ w2 evs,
      oneshot_write std_cp (some [1, 2, 3]) [1, 2, 3].length (-1) c2_writes
        (spawned_world "cat" ["cat"] c2_world) = some (0, w2) ∧
      w2.log = (spawned_world "cat" ["cat"] c2_world).log ++ evs ∧
      written_bytes evs = [1, 2, 3] ∧
      (∀ e ∈ evs, e.is_stdin_step std_cp.in_w = true) :=
  (oneshot_stdin_delivery "cat" ["cat"] [1, 2, 3] (-1) result_zero c2_writes [poll_both]
    c2_world (spawned_world "cat" ["cat"] c2_world) std_cp (by decide) (by decide) (by decide)
    (by decide)).1 (by decide)

/-- C5 at work: the child has written "hi" when the deadline passes; the call
returns -1 with an all-zero result and the child reaped. -/
theorem oneshot_timeout_escalation_witness :
    ∃ v, run_oneshot (some "sh") (some ["sh"]) none 0 100 (some result_zero) []
        [poll_out_only] c5_world = some (-1, some result_zero, v) ∧
      v.child = ChildState.reaped :=
  (oneshot_timeout_escalation "sh" ["sh"] none 0 100 result_zero [] [poll_out_only] c5_world
    (spawned_world "sh" ["sh"] c5_world) (spawned_world "sh" ["sh"] c5_world)
    (read_world std_cp 100 [poll_out_only] (spawned_world "sh" ["sh"] c5_world)) std_cp
    { data := some [104, 105, 0], len := 2, cap := 4096 } db_init
    (by decide) (by decide) (by decide)).2 15 (WaitRes.err ECHILD) [] (by decide)

/-- C6 at work: a read on stdout fails after the child has terminated; the call
returns -1 and the non-blocking wait has reaped the child. -/
theorem oneshot_failure_reap_attempt_witness :
    ∃ v, run_oneshot (some "sh") (some ["sh"]) none 0 (-1) (some result_zero) [] [poll_both]
        c6_read_world = some (-1, some result_zero, v) ∧
      v.log = (read_world std_cp (-1) [poll_both] (spawned_world "sh" ["sh"] c6_read_world)).log
        ++ [Event.waitpid std_cp.pid true] ∧
      v.errno = (read_world std_cp (-1) [poll_both]
        (spawned_world "sh" ["sh"] c6_read_world)).errno ∧
      (v.child = ChildState.reaped ↔ (WaitRes.exited 0).is_exited = true) ∧
      ((WaitRes.exited 0).is_exited = false → v.child = ChildState.unreaped) :=
  oneshot_failure_reap_attempt "sh" ["sh"] none 0 (-1) result_zero [] [poll_both] c6_read_world
    (spawned_world "sh" ["sh"] c6_read_world)
    (read_world std_cp (-1) [poll_both] (spawned_world "sh" ["sh"] c6_read_world)) std_cp
    (WaitRes.exited 0) [] (by decide)
    (Or.inr ⟨spawned_world "sh" ["sh"] c6_read_world, db_init, db_init, by decide, by decide⟩)
    (by decide)

/-- C7 at work: a NULL command is refused before anything is done. -/
theorem run_oneshot_null_argument_witness :
    run_oneshot none (some ["x"]) none 0 (-1) (some result_zero) [] [] world_spawn
      = some (-1, some result_zero, { world_spawn with errno := EINVAL }) :=
  run_oneshot_null_argument none (some ["x"]) none 0 (-1) (some result_zero) [] [] world_spawn
    (Or.inl rfl)

/-- C10 at work, once for each way the loop is left: both streams at end of
stream, the running flag cleared, the control descriptor readable, `poll` failed. -/
theorem session_on_exit_once_witness :
    (∃ v, session_thread c10_session [true, true] [poll_both] session_world_eof = some v ∧
      v.child = ChildState.reaped ∧
      v.log = (loop_world c10_session [true, true] [poll_both] session_world_eof).log ++
        [Event.waitpid c10_session.cp.pid false, Event.on_exit (session_exit_code 0)]) ∧
    (∃ v, session_thread c10_session [false] [] session_world = some v ∧
      v.child = ChildState.reaped ∧
      v.log = (loop_world c10_session [false] [] session_world).log ++
        [Event.waitpid c10_session.cp.pid false, Event.on_exit (session_exit_code 15)]) ∧
    (∃ v, session_thread c10_session [true] [poll_ctl] session_world = some v ∧
      v.child = ChildState.reaped ∧
      v.log = (loop_world c10_session [true] [poll_ctl] session_world).log ++
        [Event.waitpid c10_session.cp.pid false, Event.on_exit (session_exit_code 15)]) ∧
    (∃ v, session_thread c10_session [true] [poll_broken] session_world = some v ∧
      v.child = ChildState.reaped ∧
      v.log = (loop_world c10_session [true] [poll_broken] session_world).log ++
        [Event.waitpid c10_session.cp.pid false, Event.on_exit (session_exit_code 15)]) :=
  ⟨(session_on_exit_once c10_session [true, true] [poll_both] session_world_eof rfl).2
      (loop_world c10_session [true, true] [poll_both] session_world_eof) 0 []
      (by decide) (by decide),
   (session_on_exit_once c10_session [false] [] session_world rfl).2
      (loop_world c10_session [false] [] session_world) 15 [] (by decide) (by decide),
   (session_on_exit_once c10_session [true] [poll_ctl] session_world rfl).2
      (loop_world c10_session [true] [poll_ctl] session_world) 15 [] (by decide) (by decide),
   (session_on_exit_once c10_session [true] [poll_broken] session_world rfl).2
      (loop_world c10_session [true] [poll_broken] session_world) 15 [] (by decide) (by decide)⟩

theorem db_reserve_grow_zero (need : Nat) (h : 0 < need) :
    ∀ fuel, db_reserve_grow fuel 0 need = none := by
  intro fuel
  induction fuel with
  | zero => rfl
  | succ f ih => simp [db_reserve_grow, h, ih]

theorem db_reserve_grow_succ (need : Nat) :
    ∀ (fuel ncap r : Nat), db_reserve_grow fuel ncap need = some r →
      db_reserve_grow (fuel + 1) ncap need = some r := by
  intro fuel
  induction fuel with
  | zero => intro ncap r h; simp [db_reserve_grow] at h
  | succ f ih =>
    intro ncap r h
    unfold db_reserve_grow at h
    unfold db_reserve_grow
    split at h
    · next hlt => simp only [hlt, if_true]; exact ih _ _ h
    · next hlt => simp only [hlt, if_false]; exact h

theorem db_reserve_grow_add (need : Nat) (k : Nat) :
    ∀ (fuel ncap r : Nat), db_reserve_grow fuel ncap need = some r →
      db_reserve_grow (fuel + k) ncap need = some r := by
  induction k with
  | zero => intro fuel ncap r h; exact h
  | succ k ih => intro fuel ncap r h; exact db_reserve_grow_succ need _ _ _ (ih _ _ _ h)

theorem db_reserve_grow_none (need : Nat) :
    ∀ (fuel ncap : Nat), db_reserve_grow fuel ncap need = none →
      ∀ g, db_reserve_grow (fuel + g) ncap need
        = db_reserve_grow g ((fun n => (n * 2) % SIZE_MOD)^[fuel] ncap) need := by
  intro fuel
  induction fuel with
  | zero => intro ncap _ g; simp
  | succ f ih =>
    intro ncap h g
    unfold db_reserve_grow at h
    split at h
    · next hlt =>
      have := ih _ h g
      rw [Function.iterate_succ_apply, ← this]
      have hfg : f + 1 + g = (f + g) + 1 := by omega
      rw [hfg]
      conv_lhs => unfold db_reserve_grow
      simp only [hlt, if_true]
    · simp at h

theorem double_iterate (k ncap : Nat) :
    (fun n => (n * 2) % SIZE_MOD)^[k + 1] ncap = (ncap * 2 ^ (k + 1)) % SIZE_MOD := by
  induction k generalizing ncap with
  | zero => simp
  | succ k ih =>
    rw [Function.iterate_succ_apply, ih, Nat.mod_mul_mod, Nat.pow_succ 2 (k + 1), Nat.mul_assoc,
      Nat.mul_comm 2 (2 ^ (k + 1))]

/-- The 65 tests `db_reserve` gives the doubling loop are as good as any larger
number: the loop ends within 65 tests or never. -/
theorem db_reserve_grow_fuel (ncap need k : Nat) :
    db_reserve_grow (65 + k) ncap need = db_reserve_grow 65 ncap need := by
  cases h : db_reserve_grow 65 ncap need with
  | some r => exact db_reserve_grow_add need k 65 ncap r h
  | none =>
    have h64 : db_reserve_grow 64 ncap need = none := by
      cases h' : db_reserve_grow 64 ncap need with
      | none => rfl
      | some r =>
        have := db_reserve_grow_succ need 64 ncap r h'
        rw [h] at this
        exact absurd this (by simp)
    have hz : (fun n => (n * 2) % SIZE_MOD)^[64] ncap = 0 := by
      rw [show 64 = 63 + 1 from rfl, double_iterate]
      exact Nat.mul_mod_left _ _
    have key := db_reserve_grow_none need 64 ncap h64
    have h1 := key 1
    rw [hz] at h1
    have hpos : 0 < need := by
      by_contra hn
      have hn0 : need = 0 := by omega
      rw [show 64 + 1 = 65 from rfl, h, hn0] at h1
      simp [db_reserve_grow] at h1
    have h2 := key (1 + k)
    rw [hz, db_reserve_grow_zero need hpos] at h2
    rw [show 65 + k = 64 + (1 + k) by omega]
    exact h2

theorem stdout_chunks_append (a b : List Event) :
    stdout_chunks (a ++ b) = stdout_chunks a ++ stdout_chunks b := by
  induction a with
  | nil => rfl
  | cons e a ih => cases e <;> simp [stdout_chunks, ih]

theorem stderr_chunks_append (a b : List Event) :
    stderr_chunks (a ++ b) = stderr_chunks a ++ stderr_chunks b := by
  induction a with
  | nil => rfl
  | cons e a ih => cases e <;> simp [stderr_chunks, ih]

theorem positive_chunks_append (a b : List ReadRes) :
    positive_chunks (a ++ b) = positive_chunks a ++ positive_chunks b := by
  induction a with
  | nil => rfl
  | cons r a ih =>
    cases r with
    | data chunk =>
      by_cases h : chunk.length > 0 <;> simp [positive_chunks, h, ih]
    | err e => simp [positive_chunks, ih]

theorem follows_refl (cb : cli_callbacks_t) (w : World) : Follows cb w w :=
  ⟨[], [], [], by simp, by simp, by simp, by simp [stdout_chunks, positive_chunks],
    by simp [stderr_chunks, positive_chunks]⟩

theorem follows_trans {cb : cli_callbacks_t} {a b c : World} (h1 : Follows cb a b)
    (h2 : Follows cb b c) : Follows cb a c := by
  obtain ⟨e1, o1, r1, hl1, ho1, hr1, hs1, ht1⟩ := h1
  obtain ⟨e2, o2, r2, hl2, ho2, hr2, hs2, ht2⟩ := h2
  refine ⟨e1 ++ e2, o1 ++ o2, r1 ++ r2, ?_, ?_, ?_, ?_, ?_⟩
  · rw [hl2, hl1, List.append_assoc]
  · rw [ho1, ho2, List.append_assoc]
  · rw [hr1, hr2, List.append_assoc]
  · rw [stdout_chunks_append, hs1, hs2, positive_chunks_append]
    split <;> simp
  · rw [stderr_chunks_append, ht1, ht2, positive_chunks_append]
    split <;> simp

theorem follows_silent {cb : cli_callbacks_t} {w v : World} (evs : List Event)
    (hl : v.log = w.log ++ evs) (ho : v.reads_out = w.reads_out)
    (hr : v.reads_err = w.reads_err) (hs : stdout_chunks evs = [])
    (ht : stderr_chunks evs = []) : Follows cb w v :=
  ⟨evs, [], [], hl, by simp [ho], by simp [hr], by simp [hs, positive_chunks],
    by simp [ht, positive_chunks]⟩

theorem session_drain_follows (i : Nat) (cb : cli_callbacks_t) :
    ∀ (rs : List ReadRes) (w : World) (n : Int) (rest : List ReadRes) (v : World),
      session_drain i cb rs w = some (n, rest, v) →
      ∃ used evs, rs = used ++ rest ∧ v.log = w.log ++ evs ∧
        v.reads_out = w.reads_out ∧ v.reads_err = w.reads_err ∧
        stdout_chunks evs = (if i = 0 ∧ cb.on_stdout = true then positive_chunks used else []) ∧
        stderr_chunks evs = (if i = 1 ∧ cb.on_stderr = true then positive_chunks used else [])
    := by
  intro rs
  induction rs with
  | nil => intro w n rest v h; simp [session_drain] at h
  | cons r rs ih =>
    intro w n rest v h
    cases r with
    | data chunk =>
      unfold session_drain at h
      split at h
      · next hpos =>
        obtain ⟨used, evs, hu, hl, ho, hr, hs, ht⟩ := ih _ _ _ _ h
        by_cases c0 : i = 0 ∧ cb.on_stdout = true
        · have c1 : ¬ (i = 1 ∧ cb.on_stderr = true) := by omega
          simp only [c0, c1, and_self, if_true, if_false] at hl ho hr hs ht
          refine ⟨ReadRes.data chunk :: used, Event.on_stdout chunk :: evs, by simp [hu], ?_,
            ho, hr, ?_, ?_⟩
          · rw [hl]; simp [World.emit]
          · simp [c0, stdout_chunks, positive_chunks, hpos, hs]
          · simp [c1, stderr_chunks, ht]
        · by_cases c1 : i = 1 ∧ cb.on_stderr = true
          · simp only [c0, c1, and_self, if_true, if_false] at hl ho hr hs ht
            refine ⟨ReadRes.data chunk :: used, Event.on_stderr chunk :: evs, by simp [hu], ?_,
              ho, hr, ?_, ?_⟩
            · rw [hl]; simp [World.emit]
            · simp [c0, stdout_chunks, hs]
            · simp [c1, stderr_chunks, positive_chunks, hpos, ht]
          · simp only [c0, c1, if_false] at hl ho hr hs ht
            refine ⟨ReadRes.data chunk :: used, evs, by simp [hu], hl, ho, hr, ?_, ?_⟩
            · simp [c0, hs]
            · simp [c1, ht]
      · simp only [Option.some.injEq, Prod.mk.injEq] at h
        obtain ⟨-, rfl, rfl⟩ := h
        next hz =>
        refine ⟨[ReadRes.data chunk], [], by simp, by simp, rfl, rfl, ?_, ?_⟩
        · simp [stdout_chunks, positive_chunks, hz]
        · simp [stderr_chunks, positive_chunks, hz]
    | err e =>
      unfold session_drain at h
      simp only [Option.some.injEq, Prod.mk.injEq] at h
      obtain ⟨-, rfl, rfl⟩ := h
      exact ⟨[ReadRes.err e], [], by simp, by simp, rfl, rfl,
        by simp [stdout_chunks, positive_chunks], by simp [stderr_chunks, positive_chunks]⟩

theorem session_scan_follows {i : Nat} (hi : i = 0 ∨ i = 1) {cb : cli_callbacks_t} {p : pollfd}
    {opn : Int} {w : World} {q : pollfd} {opn1 : Int} {v : World}
    (h : session_scan i cb p opn w = some (q, opn1, v)) : Follows cb w v := by
  unfold session_scan at h
  split at h
  · simp only [Option.some.injEq, Prod.mk.injEq] at h
    obtain ⟨-, -, rfl⟩ := h
    exact follows_refl _ _
  · split at h
    · split at h
      · simp at h
      · next n rest w1 hd =>
        obtain ⟨used, evs, hu, hl, ho, hr, hs, ht⟩ := session_drain_follows i cb _ _ _ _ _ hd
        have hmid : Follows cb w (w1.set_reads i rest) := by
          rcases hi with rfl | rfl
          · simp only [World.reads, if_true] at hu
            refine ⟨evs, used, [], ?_, ?_, ?_, ?_, ?_⟩
            · simp [World.set_reads, hl]
            · simp [World.set_reads, hu]
            · simp [World.set_reads, hr]
            · simpa using hs
            · simpa [positive_chunks] using ht
          · simp only [World.reads, one_ne_zero, if_false] at hu
            refine ⟨evs, [], used, ?_, ?_, ?_, ?_, ?_⟩
            · simp [World.set_reads, hl]
            · simp [World.set_reads, ho]
            · simp [World.set_reads, hu]
            · simpa [positive_chunks] using hs
            · simpa using ht
        split at h
        · simp only [Option.some.injEq, Prod.mk.injEq] at h
          obtain ⟨-, -, rfl⟩ := h
          exact follows_trans hmid (follows_silent [Event.close p.fd] rfl rfl rfl rfl rfl)
        · simp only [Option.some.injEq, Prod.mk.injEq] at h
          obtain ⟨-, -, rfl⟩ := h
          exact hmid
    · simp only [Option.some.injEq, Prod.mk.injEq] at h
      obtain ⟨-, -, rfl⟩ := h
      exact follows_refl _ _

theorem sys_poll_follows (cb : cli_callbacks_t) (tmo : Int) (p : PollRes) (w : World) :
    Follows cb w (sys_poll tmo p w) := by
  unfold sys_poll
  split
  · exact follows_silent [Event.poll tmo] rfl rfl rfl rfl rfl
  · exact follows_silent [Event.poll tmo] rfl rfl rfl rfl rfl

theorem session_loop_follows (cb : cli_callbacks_t) :
    ∀ (loads : List Bool) (polls : List PollRes) (p0 p1 : pollfd) (opn : Int) (w v : World),
      session_loop cb loads polls p0 p1 opn w = some v → Follows cb w v := by
  intro loads
  induction loads with
  | nil => intro polls p0 p1 opn w v h; simp [session_loop] at h
  | cons b more ih =>
    intro polls p0 p1 opn w v h
    unfold session_loop at h
    split at h
    · split at h
      · simp at h
      · next p ps1 =>
        have s1 : Follows cb w (sys_poll 2000 p w) := sys_poll_follows cb _ _ _
        simp only at h
        split at h
        · split at h
          · exact follows_trans s1 (ih _ _ _ _ _ _ h)
          · simp only [Option.some.injEq] at h
            subst h
            exact s1
        · split at h
          · exact follows_trans s1 (ih _ _ _ _ _ _ h)
          · split at h
            · simp only [Option.some.injEq] at h
              subst h
              exact s1
            · split at h
              · simp at h
              · next hs0 =>
                split at h
                · simp at h
                · next hs1 =>
                  exact follows_trans (follows_trans
                    (follows_trans s1 (session_scan_follows (Or.inl rfl) hs0))
                    (session_scan_follows (Or.inr rfl) hs1)) (ih _ _ _ _ _ _ h)
    · simp only [Option.some.injEq] at h
      subst h
      exact follows_refl _ _

theorem sys_waitpid_reads {pid : Int} {nh : Bool} {w : World} {ret : Int} {st : Option Int}
    {v : World} (h : sys_waitpid pid nh w = some (ret, st, v)) :
    v.reads_out = w.reads_out ∧ v.reads_err = w.reads_err := by
  unfold sys_waitpid at h
  simp only at h
  split at h
  · simp at h
  · simp only [Option.some.injEq, Prod.mk.injEq] at h
    obtain ⟨-, -, rfl⟩ := h
    simp [World.emit]
  · split at h
    · simp only [Option.some.injEq, Prod.mk.injEq] at h
      obtain ⟨-, -, rfl⟩ := h
      simp [World.emit]
    · simp at h
  · simp only [Option.some.injEq, Prod.mk.injEq] at h
    obtain ⟨-, -, rfl⟩ := h
    simp [World.emit]

theorem session_thread_follows {s : cli_session} {loads : List Bool} {polls : List PollRes}
    {w v : World} (h : session_thread s loads polls w = some v) : Follows s.cb w v := by
  unfold session_thread at h
  split at h
  · simp at h
  · next w1 hloop =>
    have s1 := session_loop_follows _ _ _ _ _ _ _ _ hloop
    split at h
    · simp at h
    · next ret st w2 hw =>
      have hl := sys_waitpid_log hw
      have hr := sys_waitpid_reads hw
      have s2 : Follows s.cb w1 w2 :=
        follows_silent [Event.waitpid s.cp.pid false] hl hr.1 hr.2 rfl rfl
      split at h
      · simp only [Option.some.injEq] at h
        subst h
        exact follows_trans (follows_trans s1 s2)
          (follows_silent [Event.on_exit _] rfl rfl rfl rfl rfl)
      · simp only [Option.some.injEq] at h
        subst h
        exact follows_trans s1 s2

/-- C11: in every run of the monitor loop, and so of the whole monitor thread, the
chunks handed to on-stdout are exactly the positive-length read results taken from
the stdout descriptor, one callback per read, in order, with the same bytes; the
chunks handed to on-stderr are exactly those taken from the stderr descriptor; a
stream whose slot is absent is read and handed to nobody. -/
theorem session_callbacks_follow_reads (cb : cli_callbacks_t) :
    (∀ (loads : List Bool) (polls : List PollRes) (p0 p1 : pollfd) (opn : Int) (w v : World),
      session_loop cb loads polls p0 p1 opn w = some v →
      ∃ evs used_out used_err,
        v.log = w.log ++ evs ∧
        w.reads_out = used_out ++ v.reads_out ∧
        w.reads_err = used_err ++ v.reads_err ∧
        stdout_chunks evs = (if cb.on_stdout = true then positive_chunks used_out else []) ∧
        stderr_chunks evs = (if cb.on_stderr = true then positive_chunks used_err else [])) ∧
    (∀ (s : cli_session) (loads : List Bool) (polls : List PollRes) (w v : World),
      s.cb = cb → session_thread s loads polls w = some v →
      ∃ evs used_out used_err,
        v.log = w.log ++ evs ∧
        w.reads_out = used_out ++ v.reads_out ∧
        w.reads_err = used_err ++ v.reads_err ∧
        stdout_chunks evs = (if cb.on_stdout = true then positive_chunks used_out else []) ∧
        stderr_chunks evs = (if cb.on_stderr = true then positive_chunks used_err else [])) := by
  constructor
  · intro loads polls p0 p1 opn w v h
    exact session_loop_follows cb _ _ _ _ _ _ _ h
  · intro s loads polls w v hcb h
    subst hcb
    exact session_thread_follows h

/-- C11 at work: the child writes "ab", pauses, writes "c" on stdout and "e" on
stderr; on-stdout gets "ab" then "c", on-stderr gets "e". -/
theorem session_callbacks_follow_reads_witness :
    (session_thread c10_session [true, true, true] [poll_both, poll_both]
      session_world_chat).map (fun v => (stdout_chunks v.log, stderr_chunks v.log))
      = some ([[97, 98], [99]], [[101]]) ∧
    ∃ evs used_out used_err,
      (loop_world c10_session [true, true, true] [poll_both, poll_both] session_world_chat).log
        = session_world_chat.log ++ evs ∧
      session_world_chat.reads_out = used_out ++
        (loop_world c10_session [true, true, true] [poll_both, poll_both]
          session_world_chat).reads_out ∧
      session_world_chat.reads_err = used_err ++
        (loop_world c10_session [true, true, true] [poll_both, poll_both]
          session_world_chat).reads_err ∧
      stdout_chunks evs
        = (if c10_session.cb.on_stdout = true then positive_chunks used_out else []) ∧
      stderr_chunks evs
        = (if c10_session.cb.on_stderr = true then positive_chunks used_err else []) :=
  ⟨by decide,
   (session_callbacks_follow_reads c10_session.cb).1 [true, true, true] [poll_both, poll_both]
    { fd := c10_session.cp.out_r, revents := false }
    { fd := c10_session.cp.err_r, revents := false } 2 session_world_chat
    (loop_world c10_session [true, true, true] [poll_both, poll_both] session_world_chat)
    (by decide)⟩

theorem session_drain_waits (i : Nat) (cb : cli_callbacks_t) :
    ∀ (rs : List ReadRes) (w : World) (n : Int) (rest : List ReadRes) (v : World),
      session_drain i cb rs w = some (n, rest, v) → v.waits = w.waits := by
  intro rs
  induction rs with
  | nil => intro w n rest v h; simp [session_drain] at h
  | cons r rs ih =>
    intro w n rest v h
    cases r with
    | data chunk =>
      unfold session_drain at h
      split at h
      · rw [ih _ _ _ _ h]
        split <;> split <;> rfl
      · simp only [Option.some.injEq, Prod.mk.injEq] at h
        obtain ⟨-, -, rfl⟩ := h
        rfl
    | err e =>
      unfold session_drain at h
      simp only [Option.some.injEq, Prod.mk.injEq] at h
      obtain ⟨-, -, rfl⟩ := h
      rfl

theorem set_reads_waits (w : World) (i : Nat) (rs : List ReadRes) :
    (w.set_reads i rs).waits = w.waits := by
  unfold World.set_reads
  split <;> rfl

theorem session_scan_waits {i : Nat} {cb : cli_callbacks_t} {p : pollfd} {opn : Int}
    {w : World} {q : pollfd} {opn1 : Int} {v : World}
    (h : session_scan i cb p opn w = some (q, opn1, v)) : v.waits = w.waits := by
  unfold session_scan at h
  split at h
  · simp only [Option.some.injEq, Prod.mk.injEq] at h
    obtain ⟨-, -, rfl⟩ := h
    rfl
  · split at h
    · split at h
      · simp at h
      · next n rest w1 hd =>
        have h1 := session_drain_waits i cb _ _ _ _ _ hd
        split at h
        · simp only [Option.some.injEq, Prod.mk.injEq] at h
          obtain ⟨-, -, rfl⟩ := h
          simp [sys_close, set_reads_waits, h1]
        · simp only [Option.some.injEq, Prod.mk.injEq] at h
          obtain ⟨-, -, rfl⟩ := h
          simp [set_reads_waits, h1]
    · simp only [Option.some.injEq, Prod.mk.injEq] at h
      obtain ⟨-, -, rfl⟩ := h
      rfl

theorem sys_poll_waits (tmo : Int) (p : PollRes) (w : World) :
    (sys_poll tmo p w).waits = w.waits := by
  unfold sys_poll
  split <;> rfl

theorem session_loop_waits (cb : cli_callbacks_t) :
    ∀ (loads : List Bool) (polls : List PollRes) (p0 p1 : pollfd) (opn : Int) (w v : World),
      session_loop cb loads polls p0 p1 opn w = some v → v.waits = w.waits := by
  intro loads
  induction loads with
  | nil => intro polls p0 p1 opn w v h; simp [session_loop] at h
  | cons b more ih =>
    intro polls p0 p1 opn w v h
    unfold session_loop at h
    split at h
    · split at h
      · simp at h
      · next p ps1 =>
        have s1 := sys_poll_waits 2000 p w
        simp only at h
        split at h
        · split at h
          · exact (ih _ _ _ _ _ _ h).trans s1
          · simp only [Option.some.injEq] at h
            subst h
            exact s1
        · split at h
          · exact (ih _ _ _ _ _ _ h).trans s1
          · split at h
            · simp only [Option.some.injEq] at h
              subst h
              exact s1
            · split at h
              · simp at h
              · next hs0 =>
                split at h
                · simp at h
                · next hs1 =>
                  exact (((ih _ _ _ _ _ _ h).trans (session_scan_waits hs1)).trans
                    (session_scan_waits hs0)).trans s1
    · simp only [Option.some.injEq] at h
      subst h
      rfl

/-- While the child runs the monitor thread does not return, whatever its loop saw:
it is held in the blocking wait that follows the loop. -/
theorem session_thread_held_by_child (s : cli_session) (loads : List Bool)
    (polls : List PollRes) (w : World) (rest : List WaitRes)
    (h : w.waits = WaitRes.alive :: rest) : session_thread s loads polls w = none := by
  unfold session_thread
  split
  · rfl
  · next w1 hloop =>
    have hw := (session_loop_waits _ _ _ _ _ _ _ _ hloop).trans h
    simp [sys_waitpid, World.emit, hw]

/-- C12 (fails on the code): a session runs a long-lived child and
`cli_session_stop(s, 0)` is called.  No signal is sent: the call stores false in
the running flag and writes one byte to the control pipe.  The monitor leaves its
loop, by the control byte or by the flag, without having called on-exit, and is
then held in the blocking wait for as long as the child lives: the thread does not
terminate and on-exit is not fired.  Only when the child has terminated does the
same thread return, with one call of on-exit. -/
theorem session_stop_zero_waits_for_child :
    cli_session_stop (some c10_session) 0 session_world_alive
      = (0, some false, session_world_alive.emit (Event.write c10_session.ctl_wr [88])) ∧
    (session_loop c10_session.cb [true] [poll_ctl] { fd := 5, revents := false }
      { fd := 7, revents := false } 2 session_world_stopped).map
        (fun v => (v.log, on_exit_count v.log))
      = some ([Event.write 10 [88], Event.poll 2000], 0) ∧
    session_thread c10_session [true] [poll_ctl] session_world_stopped = none ∧
    session_thread c10_session [false] [] session_world_stopped = none ∧
    (session_thread c10_session [true] [poll_ctl]
      { session_world_stopped with waits := [WaitRes.exited 0] }).map
        (fun v => (v.child, on_exit_count v.log)) = some (ChildState.reaped, 1) := by
  decide

theorem db_reserve_grow_ge (need : Nat) :
    ∀ (fuel ncap r : Nat), db_reserve_grow fuel ncap need = some r → need ≤ r := by
  intro fuel
  induction fuel with
  | zero => intro ncap r h; simp [db_reserve_grow] at h
  | succ f ih =>
    intro ncap r h
    unfold db_reserve_grow at h
    split at h
    · exact ih _ _ h
    · simp only [Option.some.injEq] at h
      omega

theorem db_reserve_grow_some (need : Nat) (hb : need ≤ 2 ^ 63) :
    ∀ (fuel ncap : Nat), need ≤ ncap * 2 ^ fuel →
      ∃ r, db_reserve_grow (fuel + 1) ncap need = some r ∧ need ≤ r := by
  intro fuel
  induction fuel with
  | zero =>
    intro ncap h
    have : ¬ ncap < need := by omega
    exact ⟨ncap, by simp [db_reserve_grow, this], by omega⟩
  | succ f ih =>
    intro ncap h
    by_cases hlt : ncap < need
    · have hmod : (ncap * 2) % SIZE_MOD = ncap * 2 := by
        apply Nat.mod_eq_of_lt
        show ncap * 2 < 2 ^ 64
        omega
      have h2 : need ≤ ncap * 2 * 2 ^ f := by
        rw [Nat.mul_assoc, Nat.mul_comm 2 (2 ^ f), ← Nat.pow_succ]
        exact h
      obtain ⟨r, hr, hge⟩ := ih (ncap * 2) h2
      refine ⟨r, ?_, hge⟩
      conv_lhs => unfold db_reserve_grow
      simp only [hlt, if_true, hmod]
      exact hr
    · refine ⟨ncap, ?_, by omega⟩
      conv_lhs => unfold db_reserve_grow
      simp only [hlt, if_false]

/-- Whenever `db_reserve` returns 0 the capacity is at least `need` and not
smaller than before; whenever it returns anything else the buffer is unchanged. -/
theorem db_reserve_result {b : dynbuf_t} {need : Nat} {w : World} {r : Int} {b1 : dynbuf_t}
    {v : World} (h : db_reserve b need w = some (r, b1, v)) :
    (r = 0 → need ≤ b1.cap ∧ b.cap ≤ b1.cap ∧ b1.len = b.len ∧
      b1.data.getD [] = b.data.getD []) ∧
    (r ≠ 0 → r = -1 ∧ b1 = b ∧ b.cap < need ∧ ∃ rest, w.allocs = false :: rest) := by
  unfold db_reserve at h
  split at h
  · next hle =>
    simp only [Option.some.injEq, Prod.mk.injEq] at h
    obtain ⟨rfl, rfl, rfl⟩ := h
    exact ⟨fun _ => ⟨hle, Nat.le_refl _, rfl, rfl⟩, fun hne => absurd rfl hne⟩
  · next hlt =>
    split at h
    · simp at h
    · next ncap hg =>
      have hge := db_reserve_grow_ge need _ _ _ hg
      split at h
      · simp at h
      · next rest ha =>
        simp only [Option.some.injEq, Prod.mk.injEq] at h
        obtain ⟨rfl, rfl, rfl⟩ := h
        exact ⟨fun h0 => absurd h0 (by decide), fun _ => ⟨rfl, rfl, by omega, rest, ha⟩⟩
      · next rest ha =>
        simp only [Option.some.injEq, Prod.mk.injEq] at h
        obtain ⟨rfl, rfl, rfl⟩ := h
        exact ⟨fun _ => ⟨hge, by simp only; omega, rfl, by simp⟩, fun hne => absurd rfl hne⟩

theorem db_reserve_returns {b : dynbuf_t} {need : Nat} (w : World) (hb : need ≤ 2 ^ 63)
    (hfit : need ≤ b.cap ∨ ∃ ok rest, w.allocs = ok :: rest) :
    ∃ r b1 v, db_reserve b need w = some (r, b1, v) ∧
      (r = 0 ↔ (need ≤ b.cap ∨ ∃ rest, w.allocs = true :: rest)) := by
  by_cases hle : need ≤ b.cap
  · exact ⟨0, b, w, by simp [db_reserve, hle], by simp [hle]⟩
  · have hcap : 1 ≤ (if b.cap ≠ 0 then b.cap else 4096) := by
      split <;> omega
    have hcover : need ≤ (if b.cap ≠ 0 then b.cap else 4096) * 2 ^ 64 := by
      have h64 : (2 : Nat) ^ 63 ≤ 2 ^ 64 := by norm_num
      calc need ≤ 2 ^ 63 := hb
        _ ≤ 2 ^ 64 := h64
        _ = 1 * 2 ^ 64 := by simp
        _ ≤ (if b.cap ≠ 0 then b.cap else 4096) * 2 ^ 64 := Nat.mul_le_mul_right _ hcap
    obtain ⟨ncap, hg0, -⟩ := db_reserve_grow_some need hb 64 _ hcover
    have hg : db_reserve_grow 65 (if b.cap ≠ 0 then b.cap else 4096) need = some ncap := hg0
    rcases hfit with h1 | ⟨ok, rest, ha⟩
    · exact absurd h1 hle
    · cases ok with
      | false =>
        refine ⟨-1, b, { w with allocs := rest },
          by simp only [db_reserve, hle, if_false, hg, ha], ?_⟩
        simp [hle, ha]
      | true =>
        refine ⟨0, { b with data := some (b.data.getD []), cap := ncap },
          { w with allocs := rest }, by simp only [db_reserve, hle, if_false, hg, ha], ?_⟩
        simp [ha]

theorem db_append_zero (b : dynbuf_t) (src : List Byte) (w : World) :
    db_append b src 0 w = some (0, b, w) := by
  simp [db_append]

theorem db_append_after_reserve {b b1 : dynbuf_t} {src : List Byte} {w v : World}
    (hn : 0 < src.length) (hinit : b.len ≤ (b.data.getD []).length)
    (hbound : b.len + src.length + 1 ≤ 2 ^ 63)
    (hres : db_reserve b (b.len + src.length + 1) w = some (0, b1, v)) :
    ∃ b2, db_append b src src.length w = some (0, b2, v) ∧
      b2.holds ((b.data.getD []).take b.len ++ src) ∧
      b2.len = b.len + src.length ∧ b.cap ≤ b2.cap := by
  have hn0 : src.length ≠ 0 := by omega
  have hmod : (b.len + src.length + 1) % SIZE_MOD = b.len + src.length + 1 := by
    apply Nat.mod_eq_of_lt
    show b.len + src.length + 1 < 2 ^ 64
    omega
  have hmod2 : (b.len + src.length) % SIZE_MOD = b.len + src.length := by
    apply Nat.mod_eq_of_lt
    show b.len + src.length < 2 ^ 64
    omega
  obtain ⟨hcap, hcap2, hlen, hdata⟩ := (db_reserve_result hres).1 rfl
  have hold : ((b.data.getD []).take b.len).length = b.len := by
    rw [List.length_take]
    omega
  refine ⟨{ b1 with
      data := some ((((b1.data.getD []).take b1.len ++ src.take src.length).take
        ((b1.len + src.length) % SIZE_MOD)) ++ [0]),
      len := (b1.len + src.length) % SIZE_MOD }, ?_, ?_, ?_, ?_⟩
  · simp only [db_append, hn0, if_false, hmod, hres]
    simp
  · have hblock : ((b.data.getD []).take b.len ++ src).take (b.len + src.length)
        = (b.data.getD []).take b.len ++ src := by
      apply List.take_of_length_le
      simp only [List.length_append, hold]
      omega
    refine ⟨?_, ?_, ?_⟩
    · simp only [hlen, hmod2, List.length_append, hold]
    · simp only [hlen, hdata, hmod2, List.take_length, hblock]
    · simp only [hlen, hmod2]
      omega
  · simp only [hlen, hmod2]
  · exact hcap2

/-- `db_append` on a request in range: for every buffer `b` whose first `len` bytes
are written and every `n > 0` source bytes with `len + n + 1` at most 2^63.  If no
allocation is needed or the allocation succeeds it returns 0, the buffer holds the
old `len` bytes followed by the `n` source bytes, `len` has grown by `n`, byte
`len` is 0 and `len < cap`.  If the needed allocation fails it returns -1 with the
buffer unchanged, and it returns a non-zero value in no other case.  For `n = 0`
it returns 0 and leaves any buffer unchanged. -/
theorem db_append_in_range (b : dynbuf_t) (src : List Byte) (w : World)
    (hn : 0 < src.length)
    (hinit : b.len ≤ (b.data.getD []).length)
    (hbound : b.len + src.length + 1 ≤ 2 ^ 63) :
    ((b.len + src.length + 1 ≤ b.cap ∨ ∃ rest, w.allocs = true :: rest) →
      ∃ b2 v, db_append b src src.length w = some (0, b2, v) ∧
        b2.holds ((b.data.getD []).take b.len ++ src) ∧
        b2.len = b.len + src.length ∧ b.cap ≤ b2.cap) ∧
    (b.cap < b.len + src.length + 1 → ∀ rest, w.allocs = false :: rest →
      db_append b src src.length w = some (-1, b, { w with allocs := rest })) ∧
    (∀ r b2 v, db_append b src src.length w = some (r, b2, v) → r ≠ 0 →
      r = -1 ∧ b2 = b ∧ b.cap < b.len + src.length + 1 ∧
        ∃ rest, w.allocs = false :: rest) ∧
    (∀ (b0 : dynbuf_t) (s0 : List Byte) (w0 : World), db_append b0 s0 0 w0 = some (0, b0, w0))
    := by
  have hn0 : src.length ≠ 0 := by omega
  have hmod : (b.len + src.length + 1) % SIZE_MOD = b.len + src.length + 1 := by
    apply Nat.mod_eq_of_lt
    show b.len + src.length + 1 < 2 ^ 64
    omega
  refine ⟨?_, ?_, ?_, db_append_zero⟩
  · intro hok
    have hfit : b.len + src.length + 1 ≤ b.cap ∨ ∃ ok rest, w.allocs = ok :: rest := by
      rcases hok with h | ⟨rest, h⟩
      · exact Or.inl h
      · exact Or.inr ⟨true, rest, h⟩
    obtain ⟨r, b1, v, hres, hiff⟩ := db_reserve_returns (b := b) w hbound hfit
    have hr : r = 0 := hiff.mpr hok
    subst hr
    obtain ⟨b2, h2⟩ := db_append_after_reserve hn hinit hbound hres
    exact ⟨b2, v, h2⟩
  · intro hlt rest ha
    obtain ⟨r, b1, v, hres, hiff⟩ := db_reserve_returns (b := b) w hbound
      (Or.inr ⟨false, rest, ha⟩)
    have hr : r ≠ 0 := by
      intro h0
      rcases hiff.mp h0 with h | ⟨rest2, h⟩
      · omega
      · rw [ha] at h
        simp at h
    obtain ⟨hr1, hb1, -, rest2, ha2⟩ := (db_reserve_result hres).2 hr
    subst hr1
    subst hb1
    have hv : v = { w with allocs := rest } := by
      have := hres
      simp only [db_reserve, Nat.not_le.mpr hlt, if_false, ha] at this
      split at this
      · simp at this
      · simp only [Option.some.injEq, Prod.mk.injEq] at this
        exact this.2.2.symm
    subst hv
    simp only [db_append, hn0, if_false, hmod, hres]
    simp
  · intro r b2 v h hne
    simp only [db_append, hn0, if_false, hmod] at h
    split at h
    · simp at h
    · next r1 b1 w1 hres =>
      split at h
      · next hr1 =>
        simp only [Option.some.injEq, Prod.mk.injEq] at h
        obtain ⟨rfl, rfl, rfl⟩ := h
        obtain ⟨-, hb1, hc, hrest⟩ := (db_reserve_result hres).2 hr1
        exact ⟨rfl, hb1, hc, hrest⟩
      · simp only [Option.some.injEq, Prod.mk.injEq] at h
        exact absurd h.1.symm hne

/-- Outside that range, on states `run_oneshot` never builds (see `built_in_range`):
on a buffer of 2^64 - 2 bytes in a block of 2^64 - 1 bytes, `len + n + 1` wraps to
0 for `n = 1`, and `db_append` returns 0 without allocating and leaves `len = cap`;
on a buffer of 2^63 bytes in a block of 2^63 + 1 bytes the call does not return.
Neither block is 4096 * 2^k bytes, so no sequence of calls from `db_init` leads
here. -/
theorem db_append_past_size_t_range :
    (db_append buf_wrap [7] 1 world0).map
        (fun r => (r.1, r.2.1.len, r.2.1.cap, decide (r.2.1.len < r.2.1.cap)))
      = some (0, 2 ^ 64 - 1, 2 ^ 64 - 1, false) ∧
    db_append buf_huge [7] 1 world_alloc = none := by
  decide

/-- Outside the range of `db_reserve_grow_ends`: a request of 2^63 + 1 bytes on a
fresh buffer.  The doubling goes from 4096 up to 2^63, which is still too small,
then wraps to 0 and stays 0, so the loop is still running after any number of
tests.  The only caller, `db_append`, never makes this request on a buffer the
code holds (see `built_in_range`). -/
theorem db_reserve_doubling_never_ends :
    (∀ fuel, db_reserve_grow fuel 4096 (2 ^ 63 + 1) = none) ∧
    db_reserve db_init (2 ^ 63 + 1) world_alloc = none := by
  have h65 : db_reserve_grow 65 4096 (2 ^ 63 + 1) = none := by decide
  refine ⟨?_, by decide⟩
  intro fuel
  by_cases h : fuel ≤ 65
  · cases hf : db_reserve_grow fuel 4096 (2 ^ 63 + 1) with
    | none => rfl
    | some r =>
      have h2 := db_reserve_grow_add (2 ^ 63 + 1) (65 - fuel) fuel 4096 r hf
      rw [show fuel + (65 - fuel) = 65 by omega, h65] at h2
      simp at h2
  · have hk : fuel = 65 + (fuel - 65) := by omega
    rw [hk, db_reserve_grow_fuel]
    exact h65

theorem poll_out_count_append (a b : List Event) :
    poll_out_count (a ++ b) = poll_out_count a + poll_out_count b := by
  induction a with
  | nil => simp [poll_out_count]
  | cons e a ih => cases e <;> simp [poll_out_count, ih, Nat.add_right_comm]

theorem poll_timeouts_append (a b : List Event) :
    poll_timeouts (a ++ b) = poll_timeouts a ++ poll_timeouts b := by
  induction a with
  | nil => rfl
  | cons e a ih => cases e <;> simp [poll_timeouts, ih]

theorem write_bounded_refl (D : Int) (w : World) (r : Int) : WriteBounded D w w r :=
  ⟨[], [], [], by simp, by simp, by simp, rfl, Or.inl rfl⟩

theorem write_bounded_quiet {D : Int} {w m v : World} {r : Int} (h : WriteBounded D m v r)
    (evs : List Event) (hc : m.clock = w.clock) (hl : m.log = w.log ++ evs)
    (hq : poll_out_count evs = 0) : WriteBounded D w v r := by
  obtain ⟨used, pre, e2, hcl, hlog, hpre, hcnt, hend⟩ := h
  refine ⟨used, pre, evs ++ e2, ?_, ?_, hpre, ?_, hend⟩
  · rw [← hc, hcl]
  · rw [hlog, hl, List.append_assoc]
  · rw [poll_out_count_append, hq, hcnt, Nat.zero_add]

theorem write_bounded_wait {D : Int} {w m v : World} {r : Int} (h : WriteBounded D m v r)
    (now : Int) (fd tmo : Int) (hc : w.clock = now :: m.clock)
    (hl : m.log = w.log ++ [Event.poll_out fd tmo]) (hnow : now ≤ D) :
    WriteBounded D w v r := by
  obtain ⟨used, pre, e2, hcl, hlog, hpre, hcnt, hend⟩ := h
  refine ⟨now :: used, now :: pre, Event.poll_out fd tmo :: e2, ?_, ?_, ?_, ?_, ?_⟩
  · rw [hc, hcl]; rfl
  · rw [hlog, hl]; simp
  · intro t ht
    rcases List.mem_cons.mp ht with rfl | ht
    · exact hnow
    · exact hpre t ht
  · simp [poll_out_count, hcnt]
  · rcases hend with h1 | ⟨t, ht, hu, hr, he⟩
    · exact Or.inl (by rw [h1])
    · exact Or.inr ⟨t, ht, by rw [hu]; rfl, hr, he⟩

theorem write_loop_bounded (fd : Int) (buf : List Byte) (D : Int) (hD : 0 ≤ D) :
    ∀ (writes : List WriteRes) (p left : Nat) (w : World) (r : Int) (v : World),
      write_loop fd buf D writes p left w = some (r, v) → WriteBounded D w v r := by
  intro writes
  induction writes with
  | nil =>
    intro p left w r v h
    unfold write_loop at h
    split at h
    · simp only [Option.some.injEq, Prod.mk.injEq] at h
      obtain ⟨-, rfl⟩ := h
      exact write_bounded_refl _ _ _
    · simp at h
  | cons x rest ih =>
    intro p left w r v h
    unfold write_loop at h
    split at h
    · simp only [Option.some.injEq, Prod.mk.injEq] at h
      obtain ⟨-, rfl⟩ := h
      exact write_bounded_refl _ _ _
    · cases x with
      | accepted k =>
        simp only at h
        split at h
        · exact write_bounded_quiet (ih _ _ _ _ _ h)
            [Event.write fd ((buf.drop p).take (min k left))] rfl rfl rfl
        · simp only [Option.some.injEq, Prod.mk.injEq] at h
          obtain ⟨-, rfl⟩ := h
          exact write_bounded_refl _ _ _
      | err e =>
        simp only at h
        split at h
        · exact write_bounded_quiet (ih _ _ _ _ _ h) [] rfl (by simp) rfl
        · split at h
          · split at h
            · simp at h
            · next now w2 hnow =>
              have hf := now_ms_frame hnow
              have hck : w.clock = now :: w2.clock := by
                unfold now_ms at hnow
                split at hnow
                · simp at hnow
                · next t rest2 hcl =>
                  simp only [Option.some.injEq, Prod.mk.injEq] at hnow
                  obtain ⟨rfl, rfl⟩ := hnow
                  simpa using hcl
              split at h
              · next hgt =>
                simp only [Option.some.injEq, Prod.mk.injEq] at h
                obtain ⟨rfl, rfl⟩ := h
                exact ⟨[now], [], [], by simp [hck], by simp [hf.1], by simp, rfl,
                  Or.inr ⟨now, hgt, rfl, rfl, rfl⟩⟩
              · next hgt =>
                have hle : now ≤ D := by omega
                exact write_bounded_wait (ih _ _ _ _ _ h) now fd 50 hck
                  (by simp [World.emit, hf.1]) hle
          · simp only [Option.some.injEq, Prod.mk.injEq] at h
            obtain ⟨-, rfl⟩ := h
            exact ⟨[], [], [], by simp, by simp, by simp, rfl, Or.inl rfl⟩

theorem db_reserve_clock {b : dynbuf_t} {need : Nat} {w : World} {r : Int} {b1 : dynbuf_t}
    {v : World} (h : db_reserve b need w = some (r, b1, v)) : v.clock = w.clock := by
  unfold db_reserve at h
  split at h
  · simp only [Option.some.injEq, Prod.mk.injEq] at h
    obtain ⟨-, -, rfl⟩ := h
    rfl
  · split at h
    · simp at h
    · split at h
      · simp at h
      · simp only [Option.some.injEq, Prod.mk.injEq] at h
        obtain ⟨-, -, rfl⟩ := h
        rfl
      · simp only [Option.some.injEq, Prod.mk.injEq] at h
        obtain ⟨-, -, rfl⟩ := h
        rfl

theorem db_append_clock {b : dynbuf_t} {src : List Byte} {n : Nat} {w : World} {r : Int}
    {b1 : dynbuf_t} {v : World} (h : db_append b src n w = some (r, b1, v)) :
    v.clock = w.clock := by
  unfold db_append at h
  split at h
  · simp only [Option.some.injEq, Prod.mk.injEq] at h
    obtain ⟨-, -, rfl⟩ := h
    rfl
  · split at h
    · simp at h
    · next r0 b0 w0 hres =>
      have hf := db_reserve_clock hres
      split at h
      · simp only [Option.some.injEq, Prod.mk.injEq] at h
        obtain ⟨-, -, rfl⟩ := h
        exact hf
      · simp only [Option.some.injEq, Prod.mk.injEq] at h
        obtain ⟨-, -, rfl⟩ := h
        exact hf

theorem oneshot_drain_clock :
    ∀ (rs : List ReadRes) (b : dynbuf_t) (w : World) (x : DrainExit) (rest : List ReadRes)
      (b1 : dynbuf_t) (v : World),
      oneshot_drain rs b w = some (x, rest, b1, v) → v.clock = w.clock := by
  intro rs
  induction rs with
  | nil => intro b w x rest b1 v h; simp [oneshot_drain] at h
  | cons r rs ih =>
    intro b w x rest b1 v h
    cases r with
    | data chunk =>
      unfold oneshot_drain at h
      split at h
      · split at h
        · simp at h
        · next r0 b0 w0 hres =>
          exact (ih _ _ _ _ _ _ h).trans (db_append_clock hres)
      · simp only [Option.some.injEq, Prod.mk.injEq] at h
        obtain ⟨-, -, -, rfl⟩ := h
        rfl
    | err e =>
      unfold oneshot_drain at h
      split at h
      · simp only [Option.some.injEq, Prod.mk.injEq] at h
        obtain ⟨-, -, -, rfl⟩ := h
        rfl
      · split at h
        · simp only [Option.some.injEq, Prod.mk.injEq] at h
          obtain ⟨-, -, -, rfl⟩ := h
          rfl
        · have := ih _ _ _ _ _ _ h
          simpa using this

theorem set_reads_clock (w : World) (i : Nat) (rs : List ReadRes) :
    (w.set_reads i rs).clock = w.clock := by
  unfold World.set_reads
  split <;> rfl

theorem oneshot_scan_quiet {i : Nat} {p : pollfd} {opn : Int} {b : dynbuf_t} {w : World}
    {ok : Bool} {q : pollfd} {opn1 : Int} {b1 : dynbuf_t} {v : World}
    (h : oneshot_scan i p opn b w = some (ok, q, opn1, b1, v)) :
    v.clock = w.clock ∧ ∃ evs, v.log = w.log ++ evs ∧ poll_timeouts evs = [] := by
  unfold oneshot_scan at h
  split at h
  · simp only [Option.some.injEq, Prod.mk.injEq] at h
    obtain ⟨-, -, -, -, rfl⟩ := h
    exact ⟨rfl, [], by simp, rfl⟩
  · split at h
    · split at h
      · simp at h
      · next rest b0 w0 hd =>
        have hf := oneshot_drain_frame _ _ _ _ _ _ _ hd
        have hc := oneshot_drain_clock _ _ _ _ _ _ _ hd
        simp only [Option.some.injEq, Prod.mk.injEq] at h
        obtain ⟨-, -, -, -, rfl⟩ := h
        refine ⟨?_, [Event.close p.fd], ?_, rfl⟩
        · simp [sys_close, set_reads_clock, hc]
        · simp [sys_close, (set_reads_log w0 i rest).1, hf.1]
      · next rest b0 w0 hd =>
        have hf := oneshot_drain_frame _ _ _ _ _ _ _ hd
        have hc := oneshot_drain_clock _ _ _ _ _ _ _ hd
        simp only [Option.some.injEq, Prod.mk.injEq] at h
        obtain ⟨-, -, -, -, rfl⟩ := h
        refine ⟨?_, [], ?_, rfl⟩
        · simp [set_reads_clock, hc]
        · simp [(set_reads_log w0 i rest).1, hf.1]
    · simp only [Option.some.injEq, Prod.mk.injEq] at h
      obtain ⟨-, -, -, -, rfl⟩ := h
      exact ⟨rfl, [], by simp, rfl⟩

theorem now_ms_clock {w : World} {t : Int} {v : World} (h : now_ms w = some (t, v)) :
    w.clock = t :: v.clock := by
  unfold now_ms at h
  split at h
  · simp at h
  · next t0 rest hcl =>
    simp only [Option.some.injEq, Prod.mk.injEq] at h
    obtain ⟨rfl, rfl⟩ := h
    simpa using hcl

theorem poll_budget_spec {D : Int} (hD : 0 ≤ D) {w : World} {o : Option Int} {v : World}
    (h : poll_budget D w = some (o, v)) :
    ∃ now, w.clock = now :: v.clock ∧ v.log = w.log ∧
      ((D ≤ now ∧ o = none) ∨ (now < D ∧ o = some (to_int32 (D - now)))) := by
  unfold poll_budget at h
  simp only [ge_iff_le, hD, if_true] at h
  split at h
  · simp at h
  · next now w1 hnow =>
    have hck := now_ms_clock hnow
    have hf := now_ms_frame hnow
    split at h
    · next hge =>
      simp only [Option.some.injEq, Prod.mk.injEq] at h
      obtain ⟨rfl, rfl⟩ := h
      exact ⟨now, hck, hf.1, Or.inl ⟨hge, rfl⟩⟩
    · next hge =>
      simp only [Option.some.injEq, Prod.mk.injEq] at h
      obtain ⟨rfl, rfl⟩ := h
      exact ⟨now, hck, hf.1, Or.inr ⟨by omega, rfl⟩⟩

theorem read_bounded_refl (D : Int) (w : World) (x : LoopExit) : ReadBounded D w w x :=
  ⟨[], [], [], by simp, by simp, by simp, rfl, Or.inl rfl⟩

theorem read_bounded_expired {D : Int} {w v : World} (now : Int)
    (hc : w.clock = now :: v.clock) (hl : v.log = w.log) (hnow : D ≤ now) :
    ReadBounded D w v LoopExit.timeout :=
  ⟨[now], [], [], by simp [hc], by simp [hl], by simp, rfl, Or.inr ⟨now, hnow, rfl, rfl⟩⟩

theorem read_bounded_round {D : Int} {w m v : World} {x : LoopExit}
    (h : ReadBounded D m v x) (now : Int) (quiet : List Event)
    (hc : w.clock = now :: m.clock)
    (hl : m.log = w.log ++ Event.poll (to_int32 (D - now)) :: quiet)
    (hq : poll_timeouts quiet = []) (hnow : now < D) : ReadBounded D w v x := by
  obtain ⟨used, pre, e2, hcl, hlog, hpre, hpt, hend⟩ := h
  refine ⟨now :: used, now :: pre, Event.poll (to_int32 (D - now)) :: (quiet ++ e2),
    ?_, ?_, ?_, ?_, ?_⟩
  · rw [hc, hcl]; rfl
  · rw [hlog, hl]; simp
  · intro t ht
    rcases List.mem_cons.mp ht with rfl | ht
    · exact hnow
    · exact hpre t ht
  · simp [poll_timeouts, poll_timeouts_append, hq, hpt]
  · rcases hend with h1 | ⟨t, ht, hu, hx⟩
    · exact Or.inl (by rw [h1])
    · exact Or.inr ⟨t, ht, by rw [hu]; rfl, hx⟩

theorem sys_poll_clock_log (tmo : Int) (p : PollRes) (w : World) :
    (sys_poll tmo p w).clock = w.clock ∧ (sys_poll tmo p w).log = w.log ++ [Event.poll tmo] := by
  unfold sys_poll
  split <;> exact ⟨rfl, rfl⟩

theorem read_loop_bounded (D : Int) (hD : 0 ≤ D) :
    ∀ (polls : List PollRes) (p0 p1 : pollfd) (opn : Int) (bout berr : dynbuf_t) (w : World)
      (x : LoopExit) (bo be : dynbuf_t) (v : World),
      read_loop D polls p0 p1 opn bout berr w = some (x, bo, be, v) → ReadBounded D w v x := by
  intro polls
  induction polls with
  | nil =>
    intro p0 p1 opn bout berr w x bo be v h
    unfold read_loop at h
    split at h
    · split at h
      · next w1 hb =>
        simp only [Option.some.injEq, Prod.mk.injEq] at h
        obtain ⟨rfl, -, -, rfl⟩ := h
        obtain ⟨now, hck, hl, hcase⟩ := poll_budget_spec hD hb
        rcases hcase with ⟨hge, -⟩ | ⟨-, ho⟩
        · exact read_bounded_expired now hck hl hge
        · simp at ho
      · simp at h
    · simp only [Option.some.injEq, Prod.mk.injEq] at h
      obtain ⟨-, -, -, rfl⟩ := h
      exact read_bounded_refl _ _ _
  | cons p rest ih =>
    intro p0 p1 opn bout berr w x bo be v h
    unfold read_loop at h
    split at h
    · split at h
      · simp at h
      · next w1 hb =>
        simp only [Option.some.injEq, Prod.mk.injEq] at h
        obtain ⟨rfl, -, -, rfl⟩ := h
        obtain ⟨now, hck, hl, hcase⟩ := poll_budget_spec hD hb
        rcases hcase with ⟨hge, -⟩ | ⟨-, ho⟩
        · exact read_bounded_expired now hck hl hge
        · simp at ho
      · next tmo w1 hb =>
        obtain ⟨now, hck, hl, hcase⟩ := poll_budget_spec hD hb
        rcases hcase with ⟨-, ho⟩ | ⟨hlt, ho⟩
        · simp at ho
        · simp only [Option.some.injEq] at ho
          subst ho
          have hp := sys_poll_clock_log (to_int32 (D - now)) p w1
          have hck2 : w.clock = now :: (sys_poll (to_int32 (D - now)) p w1).clock := by
            rw [hp.1]; exact hck
          have hl2 : (sys_poll (to_int32 (D - now)) p w1).log
              = w.log ++ Event.poll (to_int32 (D - now)) :: [] := by
            rw [hp.2, hl]
          simp only at h
          split at h
          · simp only [Option.some.injEq, Prod.mk.injEq] at h
            obtain ⟨-, -, -, rfl⟩ := h
            exact read_bounded_round (read_bounded_refl _ _ _) now [] hck2 hl2 rfl hlt
          · split at h
            · simp only [Option.some.injEq, Prod.mk.injEq] at h
              obtain ⟨-, -, -, rfl⟩ := h
              exact read_bounded_round (read_bounded_refl _ _ _) now [] hck2 hl2 rfl hlt
            · split at h
              · simp at h
              · next hs0 =>
                simp only [Option.some.injEq, Prod.mk.injEq] at h
                obtain ⟨-, -, -, rfl⟩ := h
                obtain ⟨hc0, e0, hl0, hq0⟩ := oneshot_scan_quiet hs0
                exact read_bounded_round (read_bounded_refl _ _ _) now e0
                  (by rw [hc0]; exact hck2) (by rw [hl0, hl2]; simp) hq0 hlt
              · next hs0 =>
                obtain ⟨hc0, e0, hl0, hq0⟩ := oneshot_scan_quiet hs0
                split at h
                · simp at h
                · next hs1 =>
                  simp only [Option.some.injEq, Prod.mk.injEq] at h
                  obtain ⟨-, -, -, rfl⟩ := h
                  obtain ⟨hc1, e1, hl1, hq1⟩ := oneshot_scan_quiet hs1
                  exact read_bounded_round (read_bounded_refl _ _ _) now (e0 ++ e1)
                    (by rw [hc1, hc0]; exact hck2) (by rw [hl1, hl0, hl2]; simp)
                    (by simp [poll_timeouts_append, hq0, hq1]) hlt
                · next hs1 =>
                  obtain ⟨hc1, e1, hl1, hq1⟩ := oneshot_scan_quiet hs1
                  exact read_bounded_round (ih _ _ _ _ _ _ _ _ _ _ h) now (e0 ++ e1)
                    (by rw [hc1, hc0]; exact hck2) (by rw [hl1, hl0, hl2]; simp)
                    (by simp [poll_timeouts_append, hq0, hq1]) hlt
    · simp only [Option.some.injEq, Prod.mk.injEq] at h
      obtain ⟨-, -, -, rfl⟩ := h
      exact read_bounded_refl _ _ _

theorem read_loop_expired (D : Int) (hD : 0 ≤ D) (polls : List PollRes) (p0 p1 : pollfd)
    (opn : Int) (hopn : 0 < opn) (bout berr : dynbuf_t) (w : World) (now : Int)
    (c2 : List Int) (hc : w.clock = now :: c2) (hnow : D ≤ now) :
    read_loop D polls p0 p1 opn bout berr w
      = some (LoopExit.timeout, bout, berr, { w with clock := c2 }) := by
  have hb : poll_budget D w = some (none, { w with clock := c2 }) := by
    simp [poll_budget, hD, now_ms, hc, hnow]
  cases polls with
  | nil => simp [read_loop, hopn, hb]
  | cons p rest => simp [read_loop, hopn, hb]

theorem oneshot_read_unfold (cp : child_pipes_t) (timeout_ms : Int) (polls : List PollRes)
    (w2 : World) (t1 : Int) (c1 : List Int) (ht : 0 ≤ timeout_ms) (h1 : w2.clock = t1 :: c1) :
    oneshot_read cp timeout_ms polls w2
      = read_loop (t1 + timeout_ms) polls { fd := cp.out_r, revents := false }
          { fd := cp.err_r, revents := false } 2 db_init db_init
          { sys_close cp.in_w w2 with clock := c1 } := by
  simp [oneshot_read, compute_deadline, ht, now_ms, sys_close, h1]

/-- C9 (as amended): with `timeout_ms >= 0` and a payload, each phase of
`run_oneshot` is bounded by a deadline of its own.  The stdin phase runs the loop
of `write_all` with the deadline (clock at its start + `timeout_ms`): each time a
write would block it reads the clock, waits and retries while the reading is not
past that deadline, and fails with ETIMEDOUT at the first reading past it.  After
a stdin phase that succeeded, the read loop runs with the deadline (clock reading
taken after the stdin phase + `timeout_ms`): at the head of every round it reads
the clock, polls for exactly the time left while the reading is before that
deadline, and goes to `timeout` at the first reading at or past it.  So the read
deadline is later than the write deadline by the time the stdin phase took. -/
theorem oneshot_deadline_per_phase (c : String) (av : List String) (payload : List Byte)
    (stdin_len : Nat) (timeout_ms : Int) (res0 : oneshot_result_t) (writes : List WriteRes)
    (polls : List PollRes) (w w1 : World) (cp : child_pipes_t) (t0 : Int) (c0 : List Int)
    (ht : 0 ≤ timeout_ms) (hlen : stdin_len ≠ 0)
    (hspawn : spawn_with_pipes c av (w.emit (Event.signal_ign SIGPIPE)) = some (0, some cp, w1))
    (h0 : w1.clock = t0 :: c0) :
    oneshot_write cp (some payload) stdin_len timeout_ms writes w1
      = write_loop cp.in_w payload (t0 + timeout_ms) writes 0 stdin_len
          { w1 with clock := c0 } ∧
    (0 ≤ t0 + timeout_ms → ∀ r v,
      oneshot_write cp (some payload) stdin_len timeout_ms writes w1 = some (r, v) →
      WriteBounded (t0 + timeout_ms) { w1 with clock := c0 } v r) ∧
    (∀ (w2 : World) (t1 : Int) (c1 : List Int),
      oneshot_write cp (some payload) stdin_len timeout_ms writes w1 = some (0, w2) →
      w2.clock = t1 :: c1 →
      run_oneshot (some c) (some av) (some payload) stdin_len timeout_ms (some res0) writes
          polls w
        = oneshot_finish cp
            (read_loop (t1 + timeout_ms) polls { fd := cp.out_r, revents := false }
              { fd := cp.err_r, revents := false } 2 db_init db_init
              { sys_close cp.in_w w2 with clock := c1 }) ∧
      (0 ≤ t1 + timeout_ms → ∀ x bo be w3,
        oneshot_read cp timeout_ms polls w2 = some (x, bo, be, w3) →
        ReadBounded (t1 + timeout_ms) { sys_close cp.in_w w2 with clock := c1 } w3 x) ∧
      (0 ≤ t1 + timeout_ms → ∀ now c2, c1 = now :: c2 → t1 + timeout_ms ≤ now →
        run_oneshot (some c) (some av) (some payload) stdin_len timeout_ms (some res0) writes
            polls w
          = oneshot_timeout cp result_zero db_init db_init
              { sys_close cp.in_w w2 with clock := c2 })) := by
  have hw : oneshot_write cp (some payload) stdin_len timeout_ms writes w1
      = write_loop cp.in_w payload (t0 + timeout_ms) writes 0 stdin_len
          { w1 with clock := c0 } := by
    simp [oneshot_write, hlen, write_all, compute_deadline, ht, now_ms, h0]
  refine ⟨hw, ?_, ?_⟩
  · intro hD r v h
    rw [hw] at h
    exact write_loop_bounded _ _ _ hD _ _ _ _ _ _ h
  · intro w2 t1 c1 hwrite h1
    have hr := oneshot_read_unfold cp timeout_ms polls w2 t1 c1 ht h1
    have hrun : run_oneshot (some c) (some av) (some payload) stdin_len timeout_ms (some res0)
        writes polls w = oneshot_finish cp (oneshot_read cp timeout_ms polls w2) := by
      simp only [run_oneshot, hspawn, hwrite, lt_self_iff_false, if_false]
    refine ⟨by rw [hrun, hr], ?_, ?_⟩
    · intro hD x bo be w3 h
      rw [hr] at h
      exact read_loop_bounded _ hD _ _ _ _ _ _ _ _ _ _ _ h
    · intro hD now c2 hc hnow
      rw [hrun, hr]
      rw [read_loop_expired (t1 + timeout_ms) hD polls _ _ 2 (by decide) db_init db_init
        { sys_close cp.in_w w2 with clock := c1 } now c2 (by simp [hc]) hnow]
      simp [oneshot_finish]

/-- C9 at work, with a timeout of 100 ms.  The stdin phase starts at clock 0 and
runs against 100.  The read loop is set up at clock 60 and runs against 160: at
clock 120 the call goes on, at clock 200 it takes the timeout path. -/
theorem oneshot_deadline_per_phase_witness :
    oneshot_write std_cp (some [7]) 1 100 c9_writes (spawned_world "cat" ["cat"] c9_world)
      = write_loop std_cp.in_w [7] (0 + 100) c9_writes 0 1
          { spawned_world "cat" ["cat"] c9_world with clock := [50, 60, 120] } ∧
    run_oneshot (some "cat") (some ["cat"]) (some [7]) 1 100 (some result_zero) c9_writes
        [poll_both] c9_world
      = oneshot_finish std_cp
          (read_loop (60 + 100) [poll_both] { fd := std_cp.out_r, revents := false }
            { fd := std_cp.err_r, revents := false } 2 db_init db_init
            { sys_close std_cp.in_w (written_world std_cp (some [7]) 1 100 c9_writes
                (spawned_world "cat" ["cat"] c9_world)) with clock := [120] }) ∧
    ReadBounded (60 + 100)
      { sys_close std_cp.in_w (written_world std_cp (some [7]) 1 100 c9_writes
          (spawned_world "cat" ["cat"] c9_world)) with clock := [120] }
      (read_world std_cp 100 [poll_both] (written_world std_cp (some [7]) 1 100 c9_writes
          (spawned_world "cat" ["cat"] c9_world))) LoopExit.done ∧
    run_oneshot (some "cat") (some ["cat"]) (some [7]) 1 100 (some result_zero) c9_writes
        [poll_both] c9_world_late
      = oneshot_timeout std_cp result_zero db_init db_init
          { sys_close std_cp.in_w (written_world std_cp (some [7]) 1 100 c9_writes
              (spawned_world "cat" ["cat"] c9_world_late)) with clock := [] } :=
  ⟨(oneshot_deadline_per_phase "cat" ["cat"] [7] 1 100 result_zero c9_writes [poll_both]
      c9_world (spawned_world "cat" ["cat"] c9_world) std_cp 0 [50, 60, 120]
      (by decide) (by decide) (by decide) (by decide)).1,
   ((oneshot_deadline_per_phase "cat" ["cat"] [7] 1 100 result_zero c9_writes [poll_both]
      c9_world (spawned_world "cat" ["cat"] c9_world) std_cp 0 [50, 60, 120]
      (by decide) (by decide) (by decide) (by decide)).2.2
      (written_world std_cp (some [7]) 1 100 c9_writes (spawned_world "cat" ["cat"] c9_world))
      60 [120] (by decide) (by decide)).1,
   ((oneshot_deadline_per_phase "cat" ["cat"] [7] 1 100 result_zero c9_writes [poll_both]
      c9_world (spawned_world "cat" ["cat"] c9_world) std_cp 0 [50, 60, 120]
      (by decide) (by decide) (by decide) (by decide)).2.2
      (written_world std_cp (some [7]) 1 100 c9_writes (spawned_world "cat" ["cat"] c9_world))
      60 [120] (by decide) (by decide)).2.1 (by decide) LoopExit.done db_init db_init
      (read_world std_cp 100 [poll_both] (written_world std_cp (some [7]) 1 100 c9_writes
        (spawned_world "cat" ["cat"] c9_world))) (by decide),
   ((oneshot_deadline_per_phase "cat" ["cat"] [7] 1 100 result_zero c9_writes [poll_both]
      c9_world_late (spawned_world "cat" ["cat"] c9_world_late) std_cp 0 [50, 60, 200]
      (by decide) (by decide) (by decide) (by decide)).2.2
      (written_world std_cp (some [7]) 1 100 c9_writes
        (spawned_world "cat" ["cat"] c9_world_late))
      60 [200] (by decide) (by decide)).2.2 (by decide) 200 [] rfl (by decide)⟩

theorem db_reserve_grow_shape (need : Nat) (hb : need ≤ 2 ^ 63) :
    ∀ (fuel ncap r : Nat), db_reserve_grow fuel ncap need = some r → ∃ j, r = ncap * 2 ^ j := by
  intro fuel
  induction fuel with
  | zero => intro ncap r h; simp [db_reserve_grow] at h
  | succ f ih =>
    intro ncap r h
    unfold db_reserve_grow at h
    split at h
    · next hlt =>
      have hmod : (ncap * 2) % SIZE_MOD = ncap * 2 := by
        apply Nat.mod_eq_of_lt
        show ncap * 2 < 2 ^ 64
        omega
      rw [hmod] at h
      obtain ⟨j, hj⟩ := ih _ _ h
      exact ⟨j + 1, by rw [hj, Nat.pow_succ, Nat.mul_assoc, Nat.mul_comm 2 (2 ^ j)]⟩
    · simp only [Option.some.injEq] at h
      exact ⟨0, by simp [h]⟩

theorem db_reserve_cap_shape {b : dynbuf_t} {need : Nat} {w : World} {b1 : dynbuf_t}
    {v : World} (hb : need ≤ 2 ^ 63) (h : db_reserve b need w = some (0, b1, v)) :
    (b1.cap = b.cap ∧ need ≤ b.cap) ∨
      ∃ j, b1.cap = (if b.cap ≠ 0 then b.cap else 4096) * 2 ^ j := by
  unfold db_reserve at h
  split at h
  · next hle =>
    simp only [Option.some.injEq, Prod.mk.injEq] at h
    obtain ⟨-, rfl, -⟩ := h
    exact Or.inl ⟨rfl, hle⟩
  · split at h
    · simp at h
    · next ncap hg =>
      obtain ⟨j, hj⟩ := db_reserve_grow_shape need hb _ _ _ hg
      split at h
      · simp at h
      · simp at h
      · simp only [Option.some.injEq, Prod.mk.injEq] at h
        obtain ⟨-, rfl, -⟩ := h
        exact Or.inr ⟨j, hj⟩

theorem built_db_init : db_init.built :=
  Or.inl rfl

theorem pow_two_le_50 {k : Nat} (hk : k ≤ 50) : 4096 * 2 ^ k ≤ 2 ^ 62 := by
  have h1 : (2 : Nat) ^ k ≤ 2 ^ 50 := Nat.pow_le_pow_right (by decide) hk
  have h2 : (4096 : Nat) * 2 ^ 50 = 2 ^ 62 := by norm_num
  calc 4096 * 2 ^ k ≤ 4096 * 2 ^ 50 := Nat.mul_le_mul_left _ h1
    _ = 2 ^ 62 := h2

theorem pow_two_lt_63 {m : Nat} (h : 4096 * 2 ^ m < 2 ^ 63) : m ≤ 50 := by
  have h1 : (4096 : Nat) * 2 ^ m = 2 ^ (12 + m) := by
    rw [Nat.pow_add]
  rw [h1] at h
  have := (Nat.pow_lt_pow_iff_right (a := 2) (by decide)).mp h
  omega

/-- Every request `db_append` makes on a buffer the code can hold, with the at most
8192 bytes of one read, is in range: the first `len` bytes are written and
`len + n + 1` neither wraps nor exceeds 2^63. -/
theorem built_in_range {b : dynbuf_t} (hb : b.built) {n : Nat} (hn : n ≤ BUFSZ) :
    b.len ≤ (b.data.getD []).length ∧ b.len + n + 1 ≤ 2 ^ 63 ∧
      (b.len + n + 1) % SIZE_MOD = b.len + n + 1 := by
  have hn2 : n ≤ 8192 := hn
  have key : b.len ≤ (b.data.getD []).length ∧ b.len + n + 1 ≤ 2 ^ 63 := by
    rcases hb with rfl | ⟨⟨k, hk, hcap⟩, bytes, hlen, hdata, hlt⟩
    · simp only [db_init, Option.getD_none, List.length_nil, Nat.zero_add]
      omega
    · have hc := pow_two_le_50 hk
      refine ⟨by simp [hdata, hlen], ?_⟩
      rw [hcap] at hlt
      omega
  refine ⟨key.1, key.2, ?_⟩
  apply Nat.mod_eq_of_lt
  show b.len + n + 1 < 2 ^ 64
  omega

/-- The buffers `run_oneshot` holds stay as described: a successful `db_append` of
the bytes of one read to such a buffer gives such a buffer again, as long as the
new block is one that can be allocated. -/
theorem built_append {b : dynbuf_t} (hb : b.built) {src : List Byte} (hn : 0 < src.length)
    (hmax : src.length ≤ BUFSZ) {w : World} {b2 : dynbuf_t} {v : World}
    (h : db_append b src src.length w = some (0, b2, v)) (hfit : b2.cap < 2 ^ 63) :
    b2.built := by
  obtain ⟨hinit, hbound, hmod⟩ := built_in_range hb hmax
  have hn0 : src.length ≠ 0 := by omega
  have h' := h
  simp only [db_append, hn0, if_false, hmod] at h'
  split at h'
  · simp at h'
  · next r1 b1 w1 hres =>
    split at h'
    · simp at h'
    · next hr1 =>
      have hr0 : r1 = 0 := by
        by_contra hne
        exact hr1 hne
      subst hr0
      obtain ⟨b3, h3, hholds, -, -⟩ := db_append_after_reserve hn hinit hbound hres
      rw [h] at h3
      simp only [Option.some.injEq, Prod.mk.injEq, true_and] at h3
      obtain ⟨rfl, -⟩ := h3
      have hcap2 : b2.cap = b1.cap := by
        simp only [Option.some.injEq, Prod.mk.injEq, true_and] at h'
        rw [← h'.1]
      refine Or.inr ⟨?_, _, hholds⟩
      rw [hcap2] at hfit ⊢
      rcases db_reserve_cap_shape hbound hres with ⟨hsame, hle⟩ | ⟨j, hj⟩
      · rcases hb with rfl | ⟨⟨k, hk, hcap⟩, -⟩
        · simp only [db_init] at hle
          omega
        · exact ⟨k, hk, by rw [hsame, hcap]⟩
      · rcases hb with rfl | ⟨⟨k, hk, hcap⟩, -⟩
        · simp only [db_init, ne_eq, not_true_eq_false, if_false] at hj
          exact ⟨j, pow_two_lt_63 (by rw [← hj]; exact hfit), hj⟩
        · have hne : b.cap ≠ 0 := by
            rw [hcap]
            have hp : 0 < 2 ^ k := Nat.pow_pos (by decide)
            omega
          simp only [hne, ne_eq, not_false_eq_true, if_true] at hj
          have hj2 : b1.cap = 4096 * 2 ^ (k + j) := by
            rw [hj, hcap, Nat.pow_add, Nat.mul_assoc]
          exact ⟨k + j, pow_two_lt_63 (by rw [← hj2]; exact hfit), hj2⟩

/-- C13: for every buffer `b` the code can hold (fresh from `db_init` or grown from
it by appends) and every `n > 0` source bytes of one read, and more generally for
every buffer whose first `len` bytes are written and every `n > 0` source bytes
with `len + n + 1` at most 2^63, `db_append` behaves as the reference.  If no
allocation is needed or the allocation succeeds it returns 0, the buffer holds the
old `len` bytes followed by the `n` source bytes, `len` has grown by `n`, byte
`len` is 0 and `len < cap`.  If the needed allocation fails it returns -1 with
`data`, `len` and `cap` unchanged, and it returns a non-zero value in no other
case.  For `n = 0` it returns 0 and leaves any buffer unchanged.  The buffers the
code can hold are closed under the call: a fresh buffer is one, and a successful
append of one read to one gives one again. -/
theorem db_append_reference (b : dynbuf_t) (src : List Byte) (w : World)
    (hn : 0 < src.length)
    (hb : (b.built ∧ src.length ≤ BUFSZ) ∨
      (b.len ≤ (b.data.getD []).length ∧ b.len + src.length + 1 ≤ 2 ^ 63)) :
    ((b.len + src.length + 1 ≤ b.cap ∨ ∃ rest, w.allocs = true :: rest) →
      ∃ b2 v, db_append b src src.length w = some (0, b2, v) ∧
        b2.holds ((b.data.getD []).take b.len ++ src) ∧
        b2.len = b.len + src.length ∧ b.cap ≤ b2.cap) ∧
    (b.cap < b.len + src.length + 1 → ∀ rest, w.allocs = false :: rest →
      db_append b src src.length w = some (-1, b, { w with allocs := rest })) ∧
    (∀ r b2 v, db_append b src src.length w = some (r, b2, v) → r ≠ 0 →
      r = -1 ∧ b2 = b ∧ b.cap < b.len + src.length + 1 ∧
        ∃ rest, w.allocs = false :: rest) ∧
    (∀ (b0 : dynbuf_t) (s0 : List Byte) (w0 : World), db_append b0 s0 0 w0 = some (0, b0, w0)) ∧
    (db_init.built ∧
      (b.built → src.length ≤ BUFSZ → ∀ b2 v,
        db_append b src src.length w = some (0, b2, v) → b2.cap < 2 ^ 63 → b2.built)) := by
  have hr : b.len ≤ (b.data.getD []).length ∧ b.len + src.length + 1 ≤ 2 ^ 63 := by
    rcases hb with ⟨h1, h2⟩ | h
    · exact ⟨(built_in_range h1 h2).1, (built_in_range h1 h2).2.1⟩
    · exact h
  obtain ⟨h1, h2, h3, h4⟩ := db_append_in_range b src w hn hr.1 hr.2
  exact ⟨h1, h2, h3, h4, built_db_init, fun hbl hmax b2 v h hfit =>
    built_append hbl hn hmax h hfit⟩

/-- C13 at work: a first read of "hi" is appended to a fresh buffer, which then
holds "hi" in a block of 4096 bytes; and "!?" is appended to the buffer that holds
"hi" in a block of 4 bytes, which is reallocated and then holds "hi!?". -/
theorem db_append_reference_witness :
    (∃ b2 v, db_append db_init [104, 105] [104, 105].length world_alloc = some (0, b2, v) ∧
      b2.holds ((db_init.data.getD []).take db_init.len ++ [104, 105]) ∧
      b2.len = db_init.len + [104, 105].length ∧ db_init.cap ≤ b2.cap) ∧
    ∃ b2 v, db_append buf_hi [33, 63] [33, 63].length world_alloc = some (0, b2, v) ∧
      b2.holds ((buf_hi.data.getD []).take buf_hi.len ++ [33, 63]) ∧
      b2.len = buf_hi.len + [33, 63].length ∧ buf_hi.cap ≤ b2.cap :=
  ⟨(db_append_reference db_init [104, 105] world_alloc (by decide)
      (Or.inl ⟨Or.inl rfl, by decide⟩)).1 (Or.inr ⟨[], rfl⟩),
   (db_append_reference buf_hi [33, 63] world_alloc (by decide)
      (Or.inr ⟨by decide, by decide⟩)).1 (Or.inr ⟨[], rfl⟩)⟩

end CliRunner
